import Mathlib

set_option maxRecDepth 100000
set_option maxHeartbeats 2000000

/-! A verification development of the OpenCTM triangle-mesh codec and its
context API. The public header `openctm.h` of the repository is embedded
directly (enumerator values, API version macro, documented behaviour of the
query functions); the compression pipeline itself is not part of the
repository snapshot, so the container format and the RAW/MG1/MG2 codecs are
modelled from the specification. Bytes and 32-bit words are `Nat` values
(with explicit reduction modulo 2^32 where the code relies on 32-bit
wrap-around), strings are raw byte lists, and 32-bit floats are carried by
their IEEE-754 bit patterns, which is exact for the bit-exact RAW/MG1
paths; the lossy MG2 quantizer is modelled separately over exact
rationals. -/

/-- API version macro `CTM_API_VERSION` from `openctm.h` (value 0x00000004). -/
def CTM_API_VERSION : Nat := 0x00000004

/-- Modelled from the spec: the on-disk format version written at offset 4
of the file header; the core targets version 5. The writer that emits it
(`_ctmStreamWriteUINT` calls in the save path) is not in the repository
snapshot. -/
def FORMAT_VERSION : Nat := 5

/-- Error code `CTM_NONE` from the `CTMenum` in `openctm.h`. -/
def CTM_NONE : Nat := 0x0000

/-- Error code `CTM_INVALID_CONTEXT` from `openctm.h`. -/
def CTM_INVALID_CONTEXT : Nat := 0x0001

/-- Error code `CTM_INVALID_ARGUMENT` from `openctm.h`. -/
def CTM_INVALID_ARGUMENT : Nat := 0x0002

/-- Error code `CTM_INVALID_OPERATION` from `openctm.h`. -/
def CTM_INVALID_OPERATION : Nat := 0x0003

/-- Error code `CTM_INVALID_MESH` from `openctm.h`. -/
def CTM_INVALID_MESH : Nat := 0x0004

/-- Error code `CTM_OUT_OF_MEMORY` from `openctm.h`. -/
def CTM_OUT_OF_MEMORY : Nat := 0x0005

/-- Error code `CTM_FILE_ERROR` from `openctm.h`. -/
def CTM_FILE_ERROR : Nat := 0x0006

/-- Error code `CTM_FORMAT_ERROR` from `openctm.h`. -/
def CTM_FORMAT_ERROR : Nat := 0x0007

/-- Error code `CTM_LZMA_ERROR` from `openctm.h`. -/
def CTM_LZMA_ERROR : Nat := 0x0008

/-- Error code `CTM_INTERNAL_ERROR` from `openctm.h`. -/
def CTM_INTERNAL_ERROR : Nat := 0x0009

/-- Context mode `CTM_IMPORT` from `openctm.h`. -/
def CTM_IMPORT : Nat := 0x0101

/-- Context mode `CTM_EXPORT` from `openctm.h`. -/
def CTM_EXPORT : Nat := 0x0102

/-- Compression method enumerator `CTM_METHOD_RAW` from `openctm.h`. -/
def CTM_METHOD_RAW : Nat := 0x0201

/-- Compression method enumerator `CTM_METHOD_MG1` from `openctm.h`. -/
def CTM_METHOD_MG1 : Nat := 0x0202

/-- Compression method enumerator `CTM_METHOD_MG2` from `openctm.h`. -/
def CTM_METHOD_MG2 : Nat := 0x0203

/-- Integer query `CTM_VERTEX_COUNT` from `openctm.h`. -/
def CTM_VERTEX_COUNT : Nat := 0x0301

/-- Integer query `CTM_TRIANGLE_COUNT` from `openctm.h`. -/
def CTM_TRIANGLE_COUNT : Nat := 0x0302

/-- Integer query `CTM_HAS_NORMALS` from `openctm.h`. -/
def CTM_HAS_NORMALS : Nat := 0x0303

/-- Integer query `CTM_TEX_MAP_COUNT` from `openctm.h`. -/
def CTM_TEX_MAP_COUNT : Nat := 0x0304

/-- Integer query `CTM_ATTRIB_MAP_COUNT` from `openctm.h`. -/
def CTM_ATTRIB_MAP_COUNT : Nat := 0x0305

/-- String query `CTM_FILE_COMMENT` from `openctm.h`. -/
def CTM_FILE_COMMENT : Nat := 0x0401

/-- Texture-map string query `CTM_FILE_NAME` from `openctm.h`. -/
def CTM_FILE_NAME : Nat := 0x0501

/-- Array query `CTM_INDICES` from `openctm.h`. -/
def CTM_INDICES : Nat := 0x0601

/-- Array query `CTM_VERTICES` from `openctm.h`. -/
def CTM_VERTICES : Nat := 0x0602

/-- Array query `CTM_NORMALS` from `openctm.h`. -/
def CTM_NORMALS : Nat := 0x0603

/-- Array query `CTM_TEX_MAP_1` from `openctm.h`. -/
def CTM_TEX_MAP_1 : Nat := 0x0700

/-- Array query `CTM_TEX_MAP_2` from `openctm.h`. -/
def CTM_TEX_MAP_2 : Nat := 0x0701

/-- Array query `CTM_TEX_MAP_3` from `openctm.h`. -/
def CTM_TEX_MAP_3 : Nat := 0x0702

/-- Array query `CTM_TEX_MAP_4` from `openctm.h`. -/
def CTM_TEX_MAP_4 : Nat := 0x0703

/-- Array query `CTM_TEX_MAP_5` from `openctm.h`. -/
def CTM_TEX_MAP_5 : Nat := 0x0704

/-- Array query `CTM_TEX_MAP_6` from `openctm.h`. -/
def CTM_TEX_MAP_6 : Nat := 0x0705

/-- Array query `CTM_TEX_MAP_7` from `openctm.h`. -/
def CTM_TEX_MAP_7 : Nat := 0x0706

/-- Array query `CTM_TEX_MAP_8` from `openctm.h`. -/
def CTM_TEX_MAP_8 : Nat := 0x0707

/-- Array query `CTM_ATTRIB_MAP_1` from `openctm.h`. -/
def CTM_ATTRIB_MAP_1 : Nat := 0x0800

/-- Array query `CTM_ATTRIB_MAP_2` from `openctm.h`. -/
def CTM_ATTRIB_MAP_2 : Nat := 0x0801

/-- Array query `CTM_ATTRIB_MAP_3` from `openctm.h`. -/
def CTM_ATTRIB_MAP_3 : Nat := 0x0802

/-- Array query `CTM_ATTRIB_MAP_4` from `openctm.h`. -/
def CTM_ATTRIB_MAP_4 : Nat := 0x0803

/-- Array query `CTM_ATTRIB_MAP_5` from `openctm.h`. -/
def CTM_ATTRIB_MAP_5 : Nat := 0x0804

/-- Array query `CTM_ATTRIB_MAP_6` from `openctm.h`. -/
def CTM_ATTRIB_MAP_6 : Nat := 0x0805

/-- Array query `CTM_ATTRIB_MAP_7` from `openctm.h`. -/
def CTM_ATTRIB_MAP_7 : Nat := 0x0806

/-- Array query `CTM_ATTRIB_MAP_8` from `openctm.h`. -/
def CTM_ATTRIB_MAP_8 : Nat := 0x0807

/-- All enumerator values of `CTMenum` in `openctm.h`, in declaration order. -/
def ctmEnumValues : List Nat :=
  [CTM_NONE, CTM_INVALID_CONTEXT, CTM_INVALID_ARGUMENT, CTM_INVALID_OPERATION,
   CTM_INVALID_MESH, CTM_OUT_OF_MEMORY, CTM_FILE_ERROR, CTM_FORMAT_ERROR,
   CTM_LZMA_ERROR, CTM_INTERNAL_ERROR, CTM_IMPORT, CTM_EXPORT,
   CTM_METHOD_RAW, CTM_METHOD_MG1, CTM_METHOD_MG2,
   CTM_VERTEX_COUNT, CTM_TRIANGLE_COUNT, CTM_HAS_NORMALS, CTM_TEX_MAP_COUNT,
   CTM_ATTRIB_MAP_COUNT, CTM_FILE_COMMENT, CTM_FILE_NAME,
   CTM_INDICES, CTM_VERTICES, CTM_NORMALS,
   CTM_TEX_MAP_1, CTM_TEX_MAP_2, CTM_TEX_MAP_3, CTM_TEX_MAP_4,
   CTM_TEX_MAP_5, CTM_TEX_MAP_6, CTM_TEX_MAP_7, CTM_TEX_MAP_8,
   CTM_ATTRIB_MAP_1, CTM_ATTRIB_MAP_2, CTM_ATTRIB_MAP_3, CTM_ATTRIB_MAP_4,
   CTM_ATTRIB_MAP_5, CTM_ATTRIB_MAP_6, CTM_ATTRIB_MAP_7, CTM_ATTRIB_MAP_8]

/-- The eight texture-map query enumerators, in order. -/
def ctmTexMapEnums : List Nat :=
  [CTM_TEX_MAP_1, CTM_TEX_MAP_2, CTM_TEX_MAP_3, CTM_TEX_MAP_4,
   CTM_TEX_MAP_5, CTM_TEX_MAP_6, CTM_TEX_MAP_7, CTM_TEX_MAP_8]

/-- The eight attribute-map query enumerators, in order. -/
def ctmAttribMapEnums : List Nat :=
  [CTM_ATTRIB_MAP_1, CTM_ATTRIB_MAP_2, CTM_ATTRIB_MAP_3, CTM_ATTRIB_MAP_4,
   CTM_ATTRIB_MAP_5, CTM_ATTRIB_MAP_6, CTM_ATTRIB_MAP_7, CTM_ATTRIB_MAP_8]

/-- Little-endian byte decomposition of a 32-bit word, least significant
byte first, as all fixed-width values are written to a CTM stream. -/
def writeU32 (n : Nat) : List Nat :=
  [n % 256, n / 256 % 256, n / 65536 % 256, n / 16777216 % 256]

/-- Read one little-endian 32-bit word from the head of a byte stream. -/
def readU32 : List Nat → Option (Nat × List Nat)
  | b0 :: b1 :: b2 :: b3 :: r =>
    some (b0 + 256 * b1 + 65536 * b2 + 16777216 * b3, r)
  | _ => none

/-- Read exactly `n` raw bytes from the head of a byte stream. -/
def readBytes (n : Nat) (b : List Nat) : Option (List Nat × List Nat) :=
  if n ≤ b.length then some (b.take n, b.drop n) else none

/-- A length-prefixed string on the wire: `u32 length` followed by exactly
that many bytes, not NUL-terminated. -/
def writeStr (s : List Nat) : List Nat := writeU32 s.length ++ s

/-- Read a length-prefixed string from the head of a byte stream. -/
def readStr (b : List Nat) : Option (List Nat × List Nat) :=
  match readU32 b with
  | some (len, b1) => readBytes len b1
  | none => none

/-- A flat array of 32-bit words written back to back, little-endian. -/
def writeU32s (ws : List Nat) : List Nat := (ws.map writeU32).flatten

/-- Read `n` consecutive little-endian 32-bit words. -/
def readU32Array : Nat → List Nat → Option (List Nat × List Nat)
  | 0, b => some ([], b)
  | n + 1, b =>
    match readU32 b with
    | some (x, b1) =>
      match readU32Array n b1 with
      | some (xs, b2) => some (x :: xs, b2)
      | none => none
    | none => none

/-- Regroup a byte list into 32-bit words, four little-endian bytes per
word; a trailing fragment shorter than four bytes is dropped. -/
def bytesToWords : List Nat → List Nat
  | b0 :: b1 :: b2 :: b3 :: r =>
    (b0 + 256 * b1 + 65536 * b2 + 16777216 * b3) :: bytesToWords r
  | _ => []

/-- Modelled from the spec: the byte interleaver applied to every array
MG1/MG2 sends through LZMA (the packed-data writer of the stream module,
absent from the repository snapshot). For an input of N 4-byte words it
emits byte k of all words contiguously before byte k+1:
output[k*N + j] = input[4*j + k]. -/
def interleave (B : List Nat) : List Nat :=
  (List.range B.length).map
    (fun i => B.getD (4 * (i % (B.length / 4)) + i / (B.length / 4)) 0)

/-- Modelled from the spec: the inverse byte reordering applied after LZMA
decompression; output[4*j + k] = input[k*N + j]. -/
def deinterleave (B : List Nat) : List Nat :=
  (List.range B.length).map
    (fun i => B.getD (i % 4 * (B.length / 4) + i / 4) 0)

/-- Modelled from the spec: every compressed section is framed as
`u32 packed_len` followed by that many LZMA bytes wrapping the interleaved
byte layout of the word array. LZMA itself is an external collaborator
with the contract `unpack (pack x) = x` and is modelled as the identity
block codec, so `packed_len` equals the raw interleaved length. -/
def writePacked (ws : List Nat) : List Nat :=
  writeU32 (interleave (writeU32s ws)).length ++ interleave (writeU32s ws)

/-- Modelled from the spec: read a packed array of `n` words: the framing
length, that many LZMA bytes (identity codec), deinterleave, regroup into
words. The expected uncompressed length `4*n` is known by context; a
mismatch is a codec error. -/
def readPacked (n : Nat) (b : List Nat) : Option (List Nat × List Nat) :=
  match readU32 b with
  | some (plen, b1) =>
    if plen = 4 * n then
      match readBytes plen b1 with
      | some (blob, b2) => some (bytesToWords (deinterleave blob), b2)
      | none => none
    else none
  | none => none

/-- A triangle: three vertex indices. -/
abbrev Tri := Nat × Nat × Nat

/-- Flatten a triangle list into the on-wire index stream. -/
def flatTris : List Tri → List Nat
  | [] => []
  | (a, b, c) :: r => a :: b :: c :: flatTris r

/-- Group a flat index stream back into triangles. -/
def toTris : List Nat → List Tri
  | a :: b :: c :: r => (a, b, c) :: toTris r
  | _ => []

/-- Subtraction modulo 2^32, the two's-complement delta stored by the MG1
index coder (arguments are assumed < 2^32). -/
def subMod (x y : Nat) : Nat := (x + (4294967296 - y)) % 4294967296

/-- Modelled from the spec: the MG1/MG2 index delta coder (absent from the
repository snapshot). For triangle index j = 0 the predictor is the
maximum index seen so far, for j = 1, 2 it is the previous index of the
same triangle; the difference is stored as a two's-complement 32-bit
word. -/
def encodeDeltas (mx : Nat) : List Tri → List Nat
  | [] => []
  | (a, b, c) :: r =>
    subMod a mx :: subMod b a :: subMod c b ::
      encodeDeltas (max mx (max a (max b c))) r

/-- Modelled from the spec: the inverse of the index delta coder; the
decoder recomputes the same predictor and adds the stored delta modulo
2^32. -/
def decodeDeltas (mx : Nat) : List Nat → Option (List Tri)
  | [] => some []
  | d0 :: d1 :: d2 :: r =>
    let a := (mx + d0) % 4294967296
    let b := (a + d1) % 4294967296
    let c := (b + d2) % 4294967296
    (decodeDeltas (max mx (max a (max b c))) r).map (fun ts => (a, b, c) :: ts)
  | _ => none

/-- Rotate a triangle so that its smallest vertex index comes first, as the
MG1 reindexing prescribes. -/
def rotTri (t : Tri) : Tri :=
  if t.1 ≤ t.2.1 ∧ t.1 ≤ t.2.2 then t
  else if t.2.1 ≤ t.1 ∧ t.2.1 ≤ t.2.2 then (t.2.1, t.2.2, t.1)
  else (t.2.2, t.1, t.2.1)

/-- Lexicographic comparison of rotated triangles: first index, then
second, then third, as the MG1 triangle sort prescribes. -/
def triLeB (t u : Tri) : Bool :=
  decide (t.1 < u.1) ||
    (t.1 == u.1 &&
      (decide (t.2.1 < u.2.1) || (t.2.1 == u.2.1 && decide (t.2.2 ≤ u.2.2))))

/-- Insert into a list sorted by `le`. -/
def insertSorted (le : α → α → Bool) (x : α) : List α → List α
  | [] => [x]
  | y :: r => if le x y then x :: y :: r else y :: insertSorted le x r

/-- Deterministic insertion sort by `le`. -/
def sortBy (le : α → α → Bool) (l : List α) : List α :=
  l.foldr (insertSorted le) []

/-- First occurrences of the elements of a list, in order of first use. -/
def dedupGo (seen : List Nat) : List Nat → List Nat
  | [] => []
  | x :: r => if seen.contains x then dedupGo seen r else x :: dedupGo (x :: seen) r

/-- Deduplicate keeping the first occurrence of each element. -/
def dedupFirst (l : List Nat) : List Nat := dedupGo [] l

/-- Position of the first occurrence of `x`, or the length if absent. -/
def idxOf (x : Nat) : List Nat → Nat
  | [] => 0
  | y :: r => if y == x then 0 else idxOf x r + 1

/-- Gather the width-`w` chunk of each listed old index, realizing a vertex
permutation on a flat per-vertex attribute array. -/
def permChunks (perm : List Nat) (w : Nat) (data : List Nat) : List Nat :=
  (perm.map (fun o => (data.drop (w * o)).take w)).flatten

/-- A texture coordinate map: name, file-name reference, and the flat
N x 2 coordinate array (f32 bit patterns). -/
structure TexMap where
  name : List Nat
  fileName : List Nat
  coords : List Nat
deriving DecidableEq

/-- A custom attribute map: name and the flat N x 4 value array (f32 bit
patterns). -/
structure AttrMap where
  name : List Nat
  values : List Nat
deriving DecidableEq

/-- An OpenCTM mesh: flat vertex array (f32 bit patterns, 3 per vertex),
triangles, optional flat normal array, up to eight texture and attribute
maps, and the file comment (raw UTF-8 bytes). -/
structure Mesh where
  vertices : List Nat
  tris : List Tri
  normals : Option (List Nat)
  texMaps : List TexMap
  attribMaps : List AttrMap
  comment : List Nat
deriving DecidableEq

/-- Modelled from the spec: the MG1 reindexing (absent from the repository
snapshot). Triangles are rotated smallest-index-first and sorted
lexicographically; vertices are relabelled in the order they are first
referenced under this ordering (unreferenced vertices keep their relative
order at the end); every per-vertex array is permuted to match and the
triangle indices are renumbered. -/
def reindexMG1 (M : Mesh) : Mesh :=
  let sorted := sortBy triLeB (M.tris.map rotTri)
  let n := M.vertices.length / 3
  let fu := dedupFirst (flatTris sorted)
  let perm := fu ++ (List.range n).filter (fun v => !(fu.contains v))
  { vertices := permChunks perm 3 M.vertices
    tris := sorted.map (fun t => (idxOf t.1 perm, idxOf t.2.1 perm, idxOf t.2.2 perm))
    normals := M.normals.map (permChunks perm 3)
    texMaps := M.texMaps.map (fun tm => { tm with coords := permChunks perm 2 tm.coords })
    attribMaps := M.attribMaps.map (fun am => { am with values := permChunks perm 4 am.values })
    comment := M.comment }

/-- Magic number of the CTM container: the four ASCII bytes "OCTM" read as
a little-endian u32. -/
def MAGIC : Nat := 0x4D54434F

/-- Method tag for RAW: the bytes "RAW\0" as a little-endian u32. -/
def TAG_RAW : Nat := 0x00574152

/-- Method tag for MG1: the bytes "MG1\0" as a little-endian u32. -/
def TAG_MG1 : Nat := 0x0031474D

/-- Method tag for MG2: the bytes "MG2\0" as a little-endian u32. -/
def TAG_MG2 : Nat := 0x0032474D

/-- Section tag "INDX" as a little-endian u32. -/
def TAG_INDX : Nat := 0x58444E49

/-- Section tag "VERT" as a little-endian u32. -/
def TAG_VERT : Nat := 0x54524556

/-- Section tag "NORM" as a little-endian u32. -/
def TAG_NORM : Nat := 0x4D524F4E

/-- Section tag "TEXC" as a little-endian u32. -/
def TAG_TEXC : Nat := 0x43584554

/-- Section tag "ATTR" as a little-endian u32. -/
def TAG_ATTR : Nat := 0x52545441

/-- Flags value for an optional normal array: bit 0 records presence. -/
def flagsOfO : Option (List Nat) → Nat
  | some _ => 1
  | none => 0

/-- Flags field of the header: bit 0 records the presence of normals. -/
def flagsOf (M : Mesh) : Nat := flagsOfO M.normals

/-- Array payload writer: raw little-endian words for RAW, the
interleave-LZMA framing for MG1. -/
def writeArr (mg1 : Bool) (ws : List Nat) : List Nat :=
  if mg1 then writePacked ws else writeU32s ws

/-- Array payload reader matching `writeArr`. -/
def readArr (mg1 : Bool) (n : Nat) (b : List Nat) : Option (List Nat × List Nat) :=
  if mg1 then readPacked n b else readU32Array n b

/-- Index payload writer: the raw index stream for RAW, the delta-coded
packed stream for MG1. -/
def writeIdx (mg1 : Bool) (tris : List Tri) : List Nat :=
  if mg1 then writePacked (encodeDeltas 0 tris) else writeU32s (flatTris tris)

/-- The optional NORM section: tag and array when normals are present,
nothing otherwise. -/
def writeNormBlock (mg1 : Bool) : Option (List Nat) → List Nat
  | some ns => writeU32 TAG_NORM ++ writeArr mg1 ns
  | none => []

/-- Index payload reader matching `writeIdx`. -/
def readIdx (mg1 : Bool) (tc : Nat) (b : List Nat) : Option (List Tri × List Nat) :=
  if mg1 then
    match readPacked (3 * tc) b with
    | some (ws, b1) =>
      match decodeDeltas 0 ws with
      | some tris => some (tris, b1)
      | none => none
    | none => none
  else
    match readU32Array (3 * tc) b with
    | some (ws, b1) => some (toTris ws, b1)
    | none => none

/-- Modelled from the spec: one TEXC section per texture map, carrying the
name, the file-name reference and the coordinate array. -/
def writeTexMaps (mg1 : Bool) : List TexMap → List Nat
  | [] => []
  | tm :: r =>
    writeU32 TAG_TEXC ++ writeStr tm.name ++ writeStr tm.fileName ++
      writeArr mg1 tm.coords ++ writeTexMaps mg1 r

/-- Read the `cnt` TEXC sections declared by the header (`n` vertices
each). -/
def readTexMaps (mg1 : Bool) (n : Nat) : Nat → List Nat → Option (List TexMap × List Nat)
  | 0, b => some ([], b)
  | cnt + 1, b =>
    match readU32 b with
    | some (t, b1) =>
      if t = TAG_TEXC then
        match readStr b1 with
        | some (nm, b2) =>
          match readStr b2 with
          | some (fn, b3) =>
            match readArr mg1 (2 * n) b3 with
            | some (cs, b4) =>
              match readTexMaps mg1 n cnt b4 with
              | some (rest, b5) => some ({ name := nm, fileName := fn, coords := cs } :: rest, b5)
              | none => none
            | none => none
          | none => none
        | none => none
      else none
    | none => none

/-- Modelled from the spec: one ATTR section per attribute map, carrying
the name and the value array. -/
def writeAttrMaps (mg1 : Bool) : List AttrMap → List Nat
  | [] => []
  | am :: r =>
    writeU32 TAG_ATTR ++ writeStr am.name ++ writeArr mg1 am.values ++
      writeAttrMaps mg1 r

/-- Read the `cnt` ATTR sections declared by the header. -/
def readAttrMaps (mg1 : Bool) (n : Nat) : Nat → List Nat → Option (List AttrMap × List Nat)
  | 0, b => some ([], b)
  | cnt + 1, b =>
    match readU32 b with
    | some (t, b1) =>
      if t = TAG_ATTR then
        match readStr b1 with
        | some (nm, b2) =>
          match readArr mg1 (4 * n) b2 with
          | some (vs, b3) =>
            match readAttrMaps mg1 n cnt b3 with
            | some (rest, b4) => some ({ name := nm, values := vs } :: rest, b4)
            | none => none
          | none => none
        | none => none
      else none
    | none => none

/-- Read the NORM section when the header flags announce normals. -/
def readNormals (mg1 : Bool) (vc : Nat) (b : List Nat) : Option (Option (List Nat) × List Nat) :=
  match readU32 b with
  | some (t, b1) =>
    if t = TAG_NORM then
      match readArr mg1 (3 * vc) b1 with
      | some (ns, b2) => some (some ns, b2)
      | none => none
    else none
  | none => none

/-- Modelled from the spec: the CTM container writer (absent from the
repository snapshot). Header: magic, format version 5, method tag, vertex
count, triangle count, UV-map count, attribute-map count, flags,
length-prefixed comment; then the INDX, VERT, optional NORM, TEXC* and
ATTR* sections. The mesh is serialized as given; MG1 pre-processing is
applied by `encodeFile`. -/
def serializeMesh (M : Mesh) (mg1 : Bool) : List Nat :=
  writeU32 MAGIC ++ writeU32 FORMAT_VERSION ++
  writeU32 (if mg1 then TAG_MG1 else TAG_RAW) ++
  writeU32 (M.vertices.length / 3) ++ writeU32 M.tris.length ++
  writeU32 M.texMaps.length ++ writeU32 M.attribMaps.length ++
  writeU32 (flagsOf M) ++ writeStr M.comment ++
  writeU32 TAG_INDX ++ writeIdx mg1 M.tris ++
  writeU32 TAG_VERT ++ writeArr mg1 M.vertices ++
  writeNormBlock mg1 M.normals ++
  writeTexMaps mg1 M.texMaps ++ writeAttrMaps mg1 M.attribMaps

/-- Index-range validation shared by the mesh invariant and the decoder. -/
def trisInRange (ts : List Tri) (n : Nat) : Bool :=
  ts.all (fun t => decide (t.1 < n) && decide (t.2.1 < n) && decide (t.2.2 < n))

/-- Modelled from the spec: the body of the CTM reader after the method
dispatch: counts, flags, comment, then the sections in fixed order with
the exact repetition counts declared in the header. -/
def decodeBody (mg1 : Bool) (b : List Nat) : Option Mesh :=
  match readU32 b with
  | some (vc, b) =>
    match readU32 b with
    | some (tc, b) =>
      match readU32 b with
      | some (uvc, b) =>
        match readU32 b with
        | some (ac, b) =>
          match readU32 b with
          | some (flags, b) =>
            match readStr b with
            | some (cm, b) =>
              if 1 ≤ vc ∧ 1 ≤ tc ∧ uvc ≤ 8 ∧ ac ≤ 8 then
                match readU32 b with
                | some (t1, b) =>
                  if t1 = TAG_INDX then
                    match readIdx mg1 tc b with
                    | some (tris, b) =>
                      if trisInRange tris vc then
                        match readU32 b with
                        | some (t2, b) =>
                          if t2 = TAG_VERT then
                            match readArr mg1 (3 * vc) b with
                            | some (vs, b) =>
                              match
                                (if flags % 2 = 1 then readNormals mg1 vc b
                                 else some (none, b)) with
                              | some (nrm, b) =>
                                match readTexMaps mg1 vc uvc b with
                                | some (tms, b) =>
                                  match readAttrMaps mg1 vc ac b with
                                  | some (ams, _) =>
                                    some { vertices := vs, tris := tris, normals := nrm,
                                           texMaps := tms, attribMaps := ams, comment := cm }
                                  | none => none
                                | none => none
                              | none => none
                            | none => none
                          else none
                        | none => none
                      else none
                    | none => none
                  else none
                | none => none
              else none
            | none => none
          | none => none
        | none => none
      | none => none
    | none => none
  | none => none

/-- Modelled from the spec: the CTM reader (absent from the repository
snapshot): magic check, format version check (only version 5 is
accepted), method dispatch, then the method body. MG2 sections are
modelled separately over exact rationals, so the byte-level reader covers
RAW and MG1. -/
def decodeFile (b : List Nat) : Option Mesh :=
  match readU32 b with
  | none => none
  | some (mg, b1) =>
    if mg = MAGIC then
      match readU32 b1 with
      | none => none
      | some (ver, b2) =>
        if ver = FORMAT_VERSION then
          match readU32 b2 with
          | none => none
          | some (meth, b3) =>
            if meth = TAG_RAW then decodeBody false b3
            else if meth = TAG_MG1 then decodeBody true b3
            else none
        else none
    else none

/-- Modelled from the spec: the encoder entry point. RAW writes the mesh as
given; MG1 first applies the reindexing pre-processing, whose result is
what the sections carry. -/
def encodeFile (M : Mesh) (mg1 : Bool) : List Nat :=
  if mg1 then serializeMesh (reindexMG1 M) true else serializeMesh M false

/-- Per-texture-map well-formedness: bounded string lengths, coordinate
array of 2 floats per vertex, 32-bit values. -/
def texWfB (n : Nat) (tm : TexMap) : Bool :=
  decide (tm.name.length < 4294967296) && decide (tm.fileName.length < 4294967296) &&
  (tm.coords.length == 2 * n) && tm.coords.all (fun w => decide (w < 4294967296))

/-- Per-attribute-map well-formedness: bounded name, value array of 4
floats per vertex, 32-bit values. -/
def attrWfB (n : Nat) (am : AttrMap) : Bool :=
  decide (am.name.length < 4294967296) && (am.values.length == 4 * n) &&
  am.values.all (fun w => decide (w < 4294967296))

/-- Normal-array well-formedness: absent, or exactly the vertex-array
length with 32-bit values. -/
def normWfB (vlen : Nat) : Option (List Nat) → Bool
  | none => true
  | some ns => (ns.length == vlen) && ns.all (fun w => decide (w < 4294967296))

/-- The mesh invariant checked before encoding: at least one vertex and one
triangle, a whole number of vertices, indices in range, matching array
lengths, at most eight maps of either kind, and every count and word
within 32 bits (the array-size bounds keep all on-wire u32 fields,
including the packed-section lengths, below 2^32). -/
def wfB (M : Mesh) : Bool :=
  (M.vertices.length % 3 == 0) &&
  decide (1 ≤ M.vertices.length / 3) &&
  decide (M.vertices.length < 268435456) &&
  M.vertices.all (fun w => decide (w < 4294967296)) &&
  decide (1 ≤ M.tris.length) &&
  decide (M.tris.length < 268435456) &&
  trisInRange M.tris (M.vertices.length / 3) &&
  normWfB M.vertices.length M.normals &&
  decide (M.texMaps.length ≤ 8) &&
  M.texMaps.all (texWfB (M.vertices.length / 3)) &&
  decide (M.attribMaps.length ≤ 8) &&
  M.attribMaps.all (attrWfB (M.vertices.length / 3)) &&
  decide (M.comment.length < 4294967296)

/-- A 32-bit float bit pattern is finite (not NaN or Inf) when its exponent
bits 23..30 are not all ones. -/
def f32Finite (w : Nat) : Bool := decide (w / 8388608 % 256 ≠ 255)

/-- Every float carried by the mesh is finite: no NaN or Inf in vertices,
normals, texture coordinates or attribute values. -/
def noNaNInfB (M : Mesh) : Bool :=
  M.vertices.all f32Finite &&
  (match M.normals with
   | none => true
   | some ns => ns.all f32Finite) &&
  M.texMaps.all (fun tm => tm.coords.all f32Finite) &&
  M.attribMaps.all (fun am => am.values.all f32Finite)

/-- Modelled from the spec: an OpenCTM context. The opaque `CTMcontext`
handle of `openctm.h` becomes a value holding the mode, the sticky error
slot, the current mesh (absent while the context is Empty), and the
selected compression method (`true` selects MG1, `false` RAW; the
byte-level model covers these two methods). -/
structure Ctx where
  mode : Nat
  err : Nat
  mesh : Option Mesh
  mg1Method : Bool
deriving DecidableEq

/-- Modelled from the spec and the header documentation of `ctmGetError`:
return the latest error and reset the internal error variable to
`CTM_NONE`. -/
def ctmGetError (c : Ctx) : Nat × Ctx := (c.err, { c with err := CTM_NONE })

/-- Modelled from the spec: `ctmLoad`/`ctmLoadCustom` on an IMPORT context
replaces the contents on success; any decode failure aborts the load, sets
the sticky error to `CTM_FORMAT_ERROR` and reverts the context to Empty.
Calling it on a non-IMPORT context is an invalid operation. -/
def ctmLoad (c : Ctx) (f : List Nat) : Ctx :=
  if c.mode = CTM_IMPORT then
    match decodeFile f with
    | some m => { c with mesh := some m }
    | none => { c with mesh := none, err := CTM_FORMAT_ERROR }
  else { c with err := CTM_INVALID_OPERATION }

/-- Modelled from the spec: `ctmSave`/`ctmSaveCustom` on an EXPORT context
with a defined, valid mesh emits the encoded file; otherwise it fails,
setting the sticky error and leaving the accumulated state untouched. -/
def ctmSave (c : Ctx) : Ctx × Option (List Nat) :=
  if c.mode = CTM_EXPORT then
    match c.mesh with
    | some m =>
      if wfB m then (c, some (encodeFile m c.mg1Method))
      else ({ c with err := CTM_INVALID_MESH }, none)
    | none => ({ c with err := CTM_INVALID_OPERATION }, none)
  else ({ c with err := CTM_INVALID_OPERATION }, none)

/-- Modelled from the spec: `ctmDefineMesh` on an EXPORT context stores the
mesh reference; zero counts are invalid arguments, and any other mode is
an invalid operation. -/
def ctmDefineMesh (c : Ctx) (vs : List Nat) (ts : List Tri) (ns : Option (List Nat)) : Ctx :=
  if c.mode = CTM_EXPORT then
    if vs.length = 0 ∨ ts.length = 0 then { c with err := CTM_INVALID_ARGUMENT }
    else { c with mesh := some { vertices := vs, tris := ts, normals := ns,
                                 texMaps := [], attribMaps := [], comment := [] } }
  else { c with err := CTM_INVALID_OPERATION }

/-- Modelled from the spec and the header documentation of `ctmAddTexMap`:
a triangle mesh must have been defined first, so on an Empty context the
call is an invalid operation and returns the zero-valued `CTM_NONE`; an
empty name is an invalid argument; on success the map is appended and its
query enumerator returned. -/
def ctmAddTexMap (c : Ctx) (coords nm fn : List Nat) : Ctx × Nat :=
  if c.mode = CTM_EXPORT then
    match c.mesh with
    | none => ({ c with err := CTM_INVALID_OPERATION }, CTM_NONE)
    | some m =>
      if nm.length = 0 then ({ c with err := CTM_INVALID_ARGUMENT }, CTM_NONE)
      else
        ({ c with mesh := some { m with texMaps := m.texMaps ++ [{ name := nm, fileName := fn, coords := coords }] } },
         CTM_TEX_MAP_1 + m.texMaps.length)
  else ({ c with err := CTM_INVALID_OPERATION }, CTM_NONE)

/-- Modelled from the spec and the header documentation of
`ctmAddAttribMap`, analogous to `ctmAddTexMap`. -/
def ctmAddAttribMap (c : Ctx) (vals nm : List Nat) : Ctx × Nat :=
  if c.mode = CTM_EXPORT then
    match c.mesh with
    | none => ({ c with err := CTM_INVALID_OPERATION }, CTM_NONE)
    | some m =>
      if nm.length = 0 then ({ c with err := CTM_INVALID_ARGUMENT }, CTM_NONE)
      else
        ({ c with mesh := some { m with attribMaps := m.attribMaps ++ [{ name := nm, values := vals }] } },
         CTM_ATTRIB_MAP_1 + m.attribMaps.length)
  else ({ c with err := CTM_INVALID_OPERATION }, CTM_NONE)

/-- The mutating context operations, for stating sticky-error behaviour
uniformly. -/
inductive CtmOp where
  | load : List Nat → CtmOp
  | save : CtmOp
  | defineMesh : List Nat → List Tri → Option (List Nat) → CtmOp
  | addTexMap : List Nat → List Nat → List Nat → CtmOp
  | addAttribMap : List Nat → List Nat → CtmOp

/-- Run one context operation, keeping only the context. -/
def stepOp (c : Ctx) : CtmOp → Ctx
  | .load f => ctmLoad c f
  | .save => (ctmSave c).1
  | .defineMesh vs ts ns => ctmDefineMesh c vs ts ns
  | .addTexMap co nm fn => (ctmAddTexMap c co nm fn).1
  | .addAttribMap av nm => (ctmAddAttribMap c av nm).1

/-- Whether an operation succeeds on a given context (the complement of
every failure branch of the operation). -/
def okOp (c : Ctx) : CtmOp → Bool
  | .load f => (c.mode == CTM_IMPORT) && (decodeFile f).isSome
  | .save =>
    (c.mode == CTM_EXPORT) &&
      (match c.mesh with
       | some m => wfB m
       | none => false)
  | .defineMesh vs ts _ => (c.mode == CTM_EXPORT) && !(vs.length == 0) && !(ts.length == 0)
  | .addTexMap _ nm _ => (c.mode == CTM_EXPORT) && c.mesh.isSome && !(nm.length == 0)
  | .addAttribMap _ nm => (c.mode == CTM_EXPORT) && c.mesh.isSome && !(nm.length == 0)

/-- Embedded from the header documentation of `ctmGetIntegerArray`: the
triangle-index array for `CTM_INDICES`; if the requested array does not
exist, or the property does not indicate an integer array, NULL (here
`none`). -/
def ctmGetIntegerArray (c : Ctx) (prop : Nat) : Option (List Nat) :=
  match c.mesh with
  | none => none
  | some m => if prop = CTM_INDICES then some (flatTris m.tris) else none

/-- Embedded from the header documentation of `ctmGetFloatArray`: vertices,
normals, texture maps and attribute maps by property; if the requested
array does not exist, or the property does not indicate a float array,
NULL (here `none`). -/
def ctmGetFloatArray (c : Ctx) (prop : Nat) : Option (List Nat) :=
  match c.mesh with
  | none => none
  | some m =>
    if prop = CTM_VERTICES then some m.vertices
    else if prop = CTM_NORMALS then m.normals
    else if CTM_TEX_MAP_1 ≤ prop ∧ prop ≤ CTM_TEX_MAP_8 then
      (m.texMaps[prop - CTM_TEX_MAP_1]?).map TexMap.coords
    else if CTM_ATTRIB_MAP_1 ≤ prop ∧ prop ≤ CTM_ATTRIB_MAP_8 then
      (m.attribMaps[prop - CTM_ATTRIB_MAP_1]?).map AttrMap.values
    else none

/-- The properties the header documents as designating a float array. -/
def isFloatArrayProp (prop : Nat) : Prop :=
  prop = CTM_VERTICES ∨ prop = CTM_NORMALS ∨
    (CTM_TEX_MAP_1 ≤ prop ∧ prop ≤ CTM_TEX_MAP_8) ∨
    (CTM_ATTRIB_MAP_1 ≤ prop ∧ prop ≤ CTM_ATTRIB_MAP_8)

/-- Index of the first list element satisfying `p`. -/
def findIdxGo (p : α → Bool) : List α → Option Nat
  | [] => none
  | x :: r => if p x then some 0 else (findIdxGo p r).map (· + 1)

/-- Embedded from the header documentation of `ctmGetNamedTexMap`: a value
of `CTM_TEX_MAP_1` or higher when the named texture map is found,
otherwise `CTM_NONE`. -/
def ctmGetNamedTexMap (c : Ctx) (nm : List Nat) : Nat :=
  match c.mesh with
  | none => CTM_NONE
  | some m =>
    match findIdxGo (fun tm => tm.name == nm) m.texMaps with
    | some i => CTM_TEX_MAP_1 + i
    | none => CTM_NONE

/-- Round a rational to the nearest integer, halves up, as the MG2
quantizer rounds. -/
def qround (x : ℚ) : ℤ := ⌊x + 1 / 2⌋

/-- Minimum of a channel, stored in the MG2 section header. -/
def qmin : List ℚ → ℚ
  | [] => 0
  | x :: r => r.foldr min x

/-- Modelled from the spec: MG2 fixed-point quantization of one channel
value against the channel minimum with step `p`:
`round ((v - min) / p)`. -/
def quantQ (v m p : ℚ) : ℤ := qround ((v - m) / p)

/-- Lossless integer delta coding of a quantized MG2 stream: the first
value is stored absolute, later values relative to their predecessor. -/
def deltaEncodeZ (prev : ℤ) : List ℤ → List ℤ
  | [] => []
  | x :: r => (x - prev) :: deltaEncodeZ x r

/-- Inverse of `deltaEncodeZ`: running prefix sums. -/
def deltaDecodeZ (prev : ℤ) : List ℤ → List ℤ
  | [] => []
  | d :: r => (prev + d) :: deltaDecodeZ (prev + d) r

/-- Modelled from the spec: the per-channel MG2 encoder (quantize against
the channel minimum, then delta-code); the same pipeline carries vertex
coordinates per axis, the spherical normal components rho, theta, phi,
texture coordinates and attribute values, each with its own precision. -/
def mg2EncodeChannel (vs : List ℚ) (p : ℚ) : ℚ × List ℤ :=
  (qmin vs, deltaEncodeZ 0 (vs.map (fun v => quantQ v (qmin vs) p)))

/-- Modelled from the spec: the per-channel MG2 decoder: undo the deltas
and reconstruct `min + q * p`. -/
def mg2DecodeChannel (m : ℚ) (ds : List ℤ) (p : ℚ) : List ℚ :=
  (deltaDecodeZ 0 ds).map (fun (q : ℤ) => m + (q : ℚ) * p)

/-- Apply a vertex permutation (a list of old positions) to a channel. -/
def permuteL (pi : List Nat) (vs : List ℚ) : List ℚ :=
  pi.map (fun o => vs.getD o 0)

/-- Modelled from the spec: the MG2 triangle order: by the grid cell of the
first vertex (the cell heuristic is implementation-defined, here a
parameter), with the MG1 lexicographic order inside a cell. -/
def mg2TriLeB (cellOf : Nat → Nat) (t u : Tri) : Bool :=
  if cellOf t.1 = cellOf u.1 then triLeB t u
  else decide (cellOf t.1 < cellOf u.1)

/-- Modelled from the spec: the MG2 vertex permutation: rotate and sort the
triangles by grid cell, then relabel vertices in first-use order,
unreferenced vertices last. Position i of the result is the old index of
the vertex that the MG2 stream carries at new index i. -/
def mg2ReindexPerm (tris : List Tri) (cellOf : Nat → Nat) (n : Nat) : List Nat :=
  let sorted := sortBy (mg2TriLeB cellOf) (tris.map rotTri)
  let fu := dedupFirst (flatTris sorted)
  fu ++ (List.range n).filter (fun v => !(fu.contains v))

/-- A canonical mesh used to witness the bit-exact round trip: three
vertices in first-use order, one rotated-sorted triangle, normals, one
texture map named "Pigment", one attribute map named "Color", and the
comment "Hi" (all strings as UTF-8 bytes, all floats as small finite bit
patterns). -/
def meshW : Mesh :=
  { vertices := [1, 2, 3, 4, 5, 6, 7, 8, 9]
    tris := [(0, 1, 2)]
    normals := some [10, 11, 12, 13, 14, 15, 16, 17, 18]
    texMaps := [{ name := [80, 105, 103, 109, 101, 110, 116], fileName := [], coords := [21, 22, 23, 24, 25, 26] }]
    attribMaps := [{ name := [67, 111, 108, 111, 114], values := [31, 32, 33, 34, 35, 36, 37, 38, 39, 40, 41, 42] }]
    comment := [72, 105] }

/-- A mesh whose single triangle is not in canonical rotation, so the MG1
pre-processing rewrites it. -/
def meshNC : Mesh :=
  { vertices := [1, 2, 3, 4, 5, 6, 7, 8, 9]
    tris := [(1, 2, 0)]
    normals := none
    texMaps := []
    attribMaps := []
    comment := [] }

/-- A fresh IMPORT context. -/
def importCtx : Ctx := { mode := CTM_IMPORT, err := CTM_NONE, mesh := none, mg1Method := true }

/-- A fresh EXPORT context. -/
def exportCtx : Ctx := { mode := CTM_EXPORT, err := CTM_NONE, mesh := none, mg1Method := true }

/-- The name "Pigment" as UTF-8 bytes. -/
def pigmentName : List Nat := [80, 105, 103, 109, 101, 110, 116]

/-! Round-trip facts for the primitive readers and writers. -/

theorem readU32_writeU32 (n : Nat) (r : List Nat) (h : n < 4294967296) :
    readU32 (writeU32 n ++ r) = some (n, r) := by
  simp only [writeU32, List.cons_append, List.nil_append, readU32, Option.some.injEq,
    Prod.mk.injEq]
  exact ⟨by omega, trivial⟩

theorem readBytes_append (s r : List Nat) : readBytes s.length (s ++ r) = some (s, r) := by
  simp [readBytes, List.take_left, List.drop_left]

theorem readStr_writeStr (s r : List Nat) (h : s.length < 4294967296) :
    readStr (writeStr s ++ r) = some (s, r) := by
  simp only [writeStr, List.append_assoc, readStr, readU32_writeU32 s.length (s ++ r) h,
    readBytes_append]

theorem writeU32s_cons (x : Nat) (ws : List Nat) :
    writeU32s (x :: ws) = writeU32 x ++ writeU32s ws := by
  simp [writeU32s]

theorem length_writeU32s (ws : List Nat) : (writeU32s ws).length = 4 * ws.length := by
  induction ws with
  | nil => rfl
  | cons x xs ih =>
    simp only [writeU32s_cons, List.length_append, ih, writeU32, List.length_cons,
      List.length_nil]
    omega

theorem readU32Array_writeU32s (ws r : List Nat) (h : ∀ w ∈ ws, w < 4294967296) :
    readU32Array ws.length (writeU32s ws ++ r) = some (ws, r) := by
  induction ws generalizing r with
  | nil => simp [writeU32s, readU32Array]
  | cons x xs ih =>
    have hx : x < 4294967296 := h x (by simp)
    have hxs : ∀ w ∈ xs, w < 4294967296 := fun w hw => h w (by simp [hw])
    simp only [List.length_cons, writeU32s_cons, List.append_assoc, readU32Array,
      readU32_writeU32 x _ hx, ih _ hxs]

theorem bytesToWords_writeU32s (ws : List Nat) (h : ∀ w ∈ ws, w < 4294967296) :
    bytesToWords (writeU32s ws) = ws := by
  induction ws with
  | nil => rfl
  | cons x xs ih =>
    have hx : x < 4294967296 := h x (by simp)
    rw [writeU32s_cons]
    show bytesToWords ((x % 256) :: (x / 256 % 256) :: (x / 65536 % 256) ::
      (x / 16777216 % 256) :: writeU32s xs) = x :: xs
    rw [bytesToWords, ih (fun w hw => h w (by simp [hw]))]
    congr 1
    omega

/-! The byte interleaver. -/

theorem length_interleave (B : List Nat) : (interleave B).length = B.length := by
  simp [interleave]

theorem length_deinterleave (B : List Nat) : (deinterleave B).length = B.length := by
  simp [deinterleave]

theorem interleave_getD (B : List Nat) (i : Nat) (h : i < B.length) :
    (interleave B).getD i 0 =
      B.getD (4 * (i % (B.length / 4)) + i / (B.length / 4)) 0 := by
  unfold interleave
  rw [List.getD_eq_getElem _ _ (by simpa using h)]
  simp

theorem deinterleave_getD (B : List Nat) (i : Nat) (h : i < B.length) :
    (deinterleave B).getD i 0 =
      B.getD (i % 4 * (B.length / 4) + i / 4) 0 := by
  unfold deinterleave
  rw [List.getD_eq_getElem _ _ (by simpa using h)]
  simp

theorem deinterleave_interleave (B : List Nat) (h : B.length % 4 = 0) :
    deinterleave (interleave B) = B := by
  rcases Nat.eq_zero_or_pos B.length with h0 | hpos
  · rw [List.eq_nil_of_length_eq_zero h0]; rfl
  apply List.ext_getElem (by simp [deinterleave, interleave])
  intro i h1 h2
  have hN : 0 < B.length / 4 := by omega
  have hL : B.length = 4 * (B.length / 4) := by omega
  have hi4 : i / 4 < B.length / 4 := by omega
  have hm : i % 4 * (B.length / 4) + i / 4 < B.length := by
    have h1 : i % 4 * (B.length / 4) ≤ 3 * (B.length / 4) :=
      Nat.mul_le_mul_right _ (by omega)
    omega
  rw [← List.getD_eq_getElem _ 0 h1, ← List.getD_eq_getElem _ 0 h2]
  rw [deinterleave_getD _ _ (by rw [length_interleave]; exact h2)]
  rw [length_interleave]
  rw [interleave_getD _ _ hm]
  have hmodN : (i % 4 * (B.length / 4) + i / 4) % (B.length / 4) = i / 4 := by
    rw [Nat.add_comm, Nat.add_mul_mod_self_right]
    exact Nat.mod_eq_of_lt hi4
  have hdivN : (i % 4 * (B.length / 4) + i / 4) / (B.length / 4) = i % 4 := by
    rw [Nat.add_comm, Nat.add_mul_div_right _ _ hN, Nat.div_eq_of_lt hi4, Nat.zero_add]
  rw [hmodN, hdivN]
  congr 1
  omega

/-! The packed (interleave plus LZMA framing) array payload. -/

theorem readPacked_writePacked (ws r : List Nat) (n : Nat) (hlen : ws.length = n)
    (h32 : ∀ w ∈ ws, w < 4294967296) (hb : 4 * n < 4294967296) :
    readPacked n (writePacked ws ++ r) = some (ws, r) := by
  subst hlen
  have hblen : (interleave (writeU32s ws)).length = 4 * ws.length := by
    rw [length_interleave, length_writeU32s]
  have h1 : readU32 (writeU32 (4 * ws.length) ++ (interleave (writeU32s ws) ++ r)) =
      some (4 * ws.length, interleave (writeU32s ws) ++ r) := readU32_writeU32 _ _ hb
  have h2 : readBytes (4 * ws.length) (interleave (writeU32s ws) ++ r) =
      some (interleave (writeU32s ws), r) := by
    rw [← hblen]; exact readBytes_append _ _
  have h3 : deinterleave (interleave (writeU32s ws)) = writeU32s ws :=
    deinterleave_interleave _ (by rw [length_writeU32s]; omega)
  simp only [writePacked, List.append_assoc, readPacked, hblen, h1, h2, h3,
    bytesToWords_writeU32s ws h32, if_pos]

/-! The triangle stream and the MG1 index delta coder. -/

theorem flatTris_length (ts : List Tri) : (flatTris ts).length = 3 * ts.length := by
  induction ts with
  | nil => rfl
  | cons t r ih =>
    obtain ⟨a, b, c⟩ := t
    simp only [flatTris, List.length_cons, ih]
    omega

theorem toTris_flatTris (ts : List Tri) : toTris (flatTris ts) = ts := by
  induction ts with
  | nil => rfl
  | cons t r ih =>
    obtain ⟨a, b, c⟩ := t
    simp only [flatTris, toTris, ih]

theorem encodeDeltas_length (mx : Nat) (ts : List Tri) :
    (encodeDeltas mx ts).length = 3 * ts.length := by
  induction ts generalizing mx with
  | nil => rfl
  | cons t r ih =>
    obtain ⟨a, b, c⟩ := t
    simp only [encodeDeltas, List.length_cons, ih]
    omega

theorem encodeDeltas_all_lt (mx : Nat) (ts : List Tri) :
    ∀ w ∈ encodeDeltas mx ts, w < 4294967296 := by
  induction ts generalizing mx with
  | nil => intro w hw; cases hw
  | cons t r ih =>
    obtain ⟨a, b, c⟩ := t
    intro w hw
    simp only [encodeDeltas, List.mem_cons] at hw
    rcases hw with h | h | h | h
    · subst h; unfold subMod; omega
    · subst h; unfold subMod; omega
    · subst h; unfold subMod; omega
    · exact ih _ w h

theorem decodeDeltas_encodeDeltas (ts : List Tri) (mx : Nat) (hmx : mx < 4294967296)
    (h : ∀ t ∈ ts, t.1 < 4294967296 ∧ t.2.1 < 4294967296 ∧ t.2.2 < 4294967296) :
    decodeDeltas mx (encodeDeltas mx ts) = some ts := by
  induction ts generalizing mx with
  | nil => rfl
  | cons t r ih =>
    obtain ⟨a, b, c⟩ := t
    have ha : a < 4294967296 := (h (a, b, c) (by simp)).1
    have hb : b < 4294967296 := (h (a, b, c) (by simp)).2.1
    have hc : c < 4294967296 := (h (a, b, c) (by simp)).2.2
    have e1 : (mx + subMod a mx) % 4294967296 = a := by unfold subMod; omega
    have e2 : (a + subMod b a) % 4294967296 = b := by unfold subMod; omega
    have e3 : (b + subMod c b) % 4294967296 = c := by unfold subMod; omega
    simp only [encodeDeltas, decodeDeltas, e1, e2, e3]
    rw [ih _ (by omega) (fun t ht => h t (by simp [ht]))]
    rfl

/-! Section payload round trips. -/

theorem readArr_writeArr (mg1 : Bool) (ws r : List Nat) (n : Nat) (hlen : ws.length = n)
    (h32 : ∀ w ∈ ws, w < 4294967296) (hb : 4 * n < 4294967296) :
    readArr mg1 n (writeArr mg1 ws ++ r) = some (ws, r) := by
  cases mg1 with
  | false =>
    subst hlen
    simpa [readArr, writeArr] using readU32Array_writeU32s ws r h32
  | true =>
    simpa [readArr, writeArr] using readPacked_writePacked ws r n hlen h32 hb

theorem flatTris_all_lt : ∀ (ts : List Tri),
    (∀ t ∈ ts, t.1 < 4294967296 ∧ t.2.1 < 4294967296 ∧ t.2.2 < 4294967296) →
    ∀ w ∈ flatTris ts, w < 4294967296 := by
  intro ts
  induction ts with
  | nil => intro _ w hw; cases hw
  | cons t rest ih =>
    intro h w hw
    obtain ⟨a, b, c⟩ := t
    simp only [flatTris, List.mem_cons] at hw
    rcases hw with hw | hw | hw | hw
    · exact hw ▸ (h (a, b, c) (by simp)).1
    · exact hw ▸ (h (a, b, c) (by simp)).2.1
    · exact hw ▸ (h (a, b, c) (by simp)).2.2
    · exact ih (fun t ht => h t (by simp [ht])) w hw

theorem readIdx_writeIdx (mg1 : Bool) (ts : List Tri) (r : List Nat)
    (h : ∀ t ∈ ts, t.1 < 4294967296 ∧ t.2.1 < 4294967296 ∧ t.2.2 < 4294967296)
    (hb : 4 * (3 * ts.length) < 4294967296) :
    readIdx mg1 ts.length (writeIdx mg1 ts ++ r) = some (ts, r) := by
  cases mg1 with
  | false =>
    have h1 : readU32Array (3 * ts.length) (writeU32s (flatTris ts) ++ r) =
        some (flatTris ts, r) := by
      rw [← flatTris_length]
      exact readU32Array_writeU32s _ r (flatTris_all_lt ts h)
    simp [readIdx, writeIdx, h1, toTris_flatTris]
  | true =>
    have h1 : readPacked (3 * ts.length) (writePacked (encodeDeltas 0 ts) ++ r) =
        some (encodeDeltas 0 ts, r) :=
      readPacked_writePacked _ r _ (encodeDeltas_length 0 ts) (encodeDeltas_all_lt 0 ts) hb
    simp [readIdx, writeIdx, h1, decodeDeltas_encodeDeltas ts 0 (by omega) h]

theorem readNormals_writeNormals (mg1 : Bool) (vc : Nat) (ns r : List Nat)
    (hlen : ns.length = 3 * vc) (h32 : ∀ w ∈ ns, w < 4294967296)
    (hb : 4 * (3 * vc) < 4294967296) :
    readNormals mg1 vc (writeU32 TAG_NORM ++ (writeArr mg1 ns ++ r)) = some (some ns, r) := by
  have h1 : readU32 (writeU32 TAG_NORM ++ (writeArr mg1 ns ++ r)) =
      some (TAG_NORM, writeArr mg1 ns ++ r) := readU32_writeU32 _ _ (by decide)
  simp [readNormals, h1, readArr_writeArr mg1 ns r (3 * vc) hlen h32 hb]

theorem readTexMaps_writeTexMaps (mg1 : Bool) (n : Nat) (tms : List TexMap) (r : List Nat)
    (h : ∀ tm ∈ tms, texWfB n tm = true) (hb : 4 * (2 * n) < 4294967296) :
    readTexMaps mg1 n tms.length (writeTexMaps mg1 tms ++ r) = some (tms, r) := by
  induction tms generalizing r with
  | nil => simp [readTexMaps, writeTexMaps]
  | cons tm rest ih =>
    have hw := h tm (by simp)
    simp only [texWfB, Bool.and_eq_true, decide_eq_true_eq, beq_iff_eq,
      List.all_eq_true] at hw
    obtain ⟨⟨⟨hn1, hn2⟩, hcl⟩, hcw⟩ := hw
    have hcw2 : ∀ w ∈ tm.coords, w < 4294967296 := by
      intro w hwm
      have := hcw w hwm
      simpa using this
    have h1 : readU32 (writeU32 TAG_TEXC ++ (writeStr tm.name ++ (writeStr tm.fileName ++
        (writeArr mg1 tm.coords ++ (writeTexMaps mg1 rest ++ r))))) =
        some (TAG_TEXC, writeStr tm.name ++ (writeStr tm.fileName ++
          (writeArr mg1 tm.coords ++ (writeTexMaps mg1 rest ++ r)))) :=
      readU32_writeU32 _ _ (by decide)
    have h2 := readStr_writeStr tm.name (writeStr tm.fileName ++
      (writeArr mg1 tm.coords ++ (writeTexMaps mg1 rest ++ r))) hn1
    have h3 := readStr_writeStr tm.fileName
      (writeArr mg1 tm.coords ++ (writeTexMaps mg1 rest ++ r)) hn2
    have h4 := readArr_writeArr mg1 tm.coords (writeTexMaps mg1 rest ++ r) (2 * n) hcl hcw2 hb
    have h5 := ih r (fun t ht => h t (by simp [ht]))
    simp only [writeTexMaps, List.append_assoc, List.length_cons, readTexMaps,
      h1, h2, h3, h4, h5, if_pos]

theorem readAttrMaps_writeAttrMaps (mg1 : Bool) (n : Nat) (ams : List AttrMap) (r : List Nat)
    (h : ∀ am ∈ ams, attrWfB n am = true) (hb : 4 * (4 * n) < 4294967296) :
    readAttrMaps mg1 n ams.length (writeAttrMaps mg1 ams ++ r) = some (ams, r) := by
  induction ams generalizing r with
  | nil => simp [readAttrMaps, writeAttrMaps]
  | cons am rest ih =>
    have hw := h am (by simp)
    simp only [attrWfB, Bool.and_eq_true, decide_eq_true_eq, beq_iff_eq,
      List.all_eq_true] at hw
    obtain ⟨⟨hn1, hvl⟩, hvw⟩ := hw
    have hvw2 : ∀ w ∈ am.values, w < 4294967296 := by
      intro w hwm
      simpa using hvw w hwm
    have h1 : readU32 (writeU32 TAG_ATTR ++ (writeStr am.name ++
        (writeArr mg1 am.values ++ (writeAttrMaps mg1 rest ++ r)))) =
        some (TAG_ATTR, writeStr am.name ++
          (writeArr mg1 am.values ++ (writeAttrMaps mg1 rest ++ r))) :=
      readU32_writeU32 _ _ (by decide)
    have h2 := readStr_writeStr am.name
      (writeArr mg1 am.values ++ (writeAttrMaps mg1 rest ++ r)) hn1
    have h3 := readArr_writeArr mg1 am.values (writeAttrMaps mg1 rest ++ r) (4 * n) hvl hvw2 hb
    have h4 := ih r (fun t ht => h t (by simp [ht]))
    simp only [writeAttrMaps, List.append_assoc, List.length_cons, readAttrMaps,
      h1, h2, h3, h4, if_pos]

theorem readOptNormals (mg1 : Bool) (vc : Nat) (ons : Option (List Nat)) (r : List Nat)
    (hw : normWfB (3 * vc) ons = true) (hb : 4 * (3 * vc) < 4294967296) :
    (if flagsOfO ons % 2 = 1 then readNormals mg1 vc (writeNormBlock mg1 ons ++ r)
     else some (none, writeNormBlock mg1 ons ++ r)) = some (ons, r) := by
  cases ons with
  | none => simp [flagsOfO, writeNormBlock]
  | some ns =>
    simp only [normWfB, Bool.and_eq_true, beq_iff_eq, List.all_eq_true,
      decide_eq_true_eq] at hw
    obtain ⟨hlen, h32⟩ := hw
    have h1 := readNormals_writeNormals mg1 vc ns r hlen h32 hb
    simpa [flagsOfO, writeNormBlock, List.append_assoc] using h1

theorem decodeFile_serializeMesh (M : Mesh) (mg1 : Bool) (hwf : wfB M = true) :
    decodeFile (serializeMesh M mg1) = some M := by
  simp only [wfB, Bool.and_eq_true, beq_iff_eq, decide_eq_true_eq, List.all_eq_true] at hwf
  obtain ⟨⟨⟨⟨⟨⟨⟨⟨⟨⟨⟨⟨hmod, hv1⟩, hvlt⟩, hv32⟩, ht1⟩, htlt⟩, htr⟩, hnw⟩, htm8⟩, htmw⟩,
    ham8⟩, hamw⟩, hcm⟩ := hwf
  have h3v : 3 * (M.vertices.length / 3) = M.vertices.length := by omega
  have hvclt : M.vertices.length / 3 < 4294967296 := by omega
  have htl32 : M.tris.length < 4294967296 := by omega
  have htm32 : M.texMaps.length < 4294967296 := by omega
  have ham32 : M.attribMaps.length < 4294967296 := by omega
  have hflt : flagsOfO M.normals < 4294967296 := by
    rcases M.normals with _ | ns <;> simp [flagsOfO]
  have hbv : 4 * M.vertices.length < 4294967296 := by omega
  have hbt : 4 * (3 * M.tris.length) < 4294967296 := by omega
  have hbtm : 4 * (2 * (M.vertices.length / 3)) < 4294967296 := by omega
  have hbam : 4 * (4 * (M.vertices.length / 3)) < 4294967296 := by omega
  have hv32m : ∀ w ∈ M.vertices, w < 4294967296 := fun w hw => hv32 w hw
  have htr32 : ∀ t ∈ M.tris, t.1 < 4294967296 ∧ t.2.1 < 4294967296 ∧ t.2.2 < 4294967296 := by
    intro t ht
    have h := htr
    simp only [trisInRange, List.all_eq_true, Bool.and_eq_true, decide_eq_true_eq] at h
    obtain ⟨⟨x1, x2⟩, x3⟩ := h t ht
    exact ⟨by omega, by omega, by omega⟩
  have hidx : ∀ (mg : Bool) (r : List Nat),
      readIdx mg M.tris.length (writeIdx mg M.tris ++ r) = some (M.tris, r) :=
    fun mg r => readIdx_writeIdx mg M.tris r htr32 hbt
  have hvert : ∀ (mg : Bool) (r : List Nat),
      readArr mg M.vertices.length (writeArr mg M.vertices ++ r) = some (M.vertices, r) :=
    fun mg r => readArr_writeArr mg M.vertices r M.vertices.length rfl hv32m (by omega)
  have hnorm : ∀ (mg : Bool) (r : List Nat),
      (if flagsOfO M.normals % 2 = 1 then
        readNormals mg (M.vertices.length / 3) (writeNormBlock mg M.normals ++ r)
       else some (none, writeNormBlock mg M.normals ++ r)) = some (M.normals, r) :=
    fun mg r => readOptNormals mg _ M.normals r (by rw [h3v]; exact hnw) (by rw [h3v]; omega)
  have htex : ∀ (mg : Bool) (r : List Nat),
      readTexMaps mg (M.vertices.length / 3) M.texMaps.length
        (writeTexMaps mg M.texMaps ++ r) = some (M.texMaps, r) :=
    fun mg r => readTexMaps_writeTexMaps mg _ M.texMaps r htmw hbtm
  have hattr : ∀ (mg : Bool) (r : List Nat),
      readAttrMaps mg (M.vertices.length / 3) M.attribMaps.length
        (writeAttrMaps mg M.attribMaps ++ r) = some (M.attribMaps, r) :=
    fun mg r => readAttrMaps_writeAttrMaps mg _ M.attribMaps r hamw hbam
  have hattr2 : ∀ (mg : Bool),
      readAttrMaps mg (M.vertices.length / 3) M.attribMaps.length
        (writeAttrMaps mg M.attribMaps) = some (M.attribMaps, []) :=
    fun mg => by simpa using hattr mg []
  cases mg1 <;>
    simp [serializeMesh, decodeFile, decodeBody, flagsOf, List.append_assoc,
      readU32_writeU32, readStr_writeStr, hidx, hvert, hnorm, htex, hattr, hattr2,
      MAGIC, FORMAT_VERSION, TAG_RAW, TAG_MG1, TAG_INDX, TAG_VERT,
      h3v, hmod, hv1, ht1, htm8, ham8, hcm, htr,
      hvclt, htl32, htm32, ham32, hflt]

/-! The MG2 fixed-point channel pipeline over exact rationals. -/

theorem deltaDecodeZ_deltaEncodeZ (l : List ℤ) :
    ∀ prev, deltaDecodeZ prev (deltaEncodeZ prev l) = l := by
  induction l with
  | nil => intro prev; rfl
  | cons x r ih =>
    intro prev
    simp only [deltaEncodeZ, deltaDecodeZ]
    have h : prev + (x - prev) = x := by ring
    rw [h, ih x]

theorem quant_dequant (v m p : ℚ) (hp : 0 < p) :
    |m + (quantQ v m p : ℚ) * p - v| ≤ p / 2 := by
  have hp0 : p ≠ 0 := ne_of_gt hp
  have hv : (v - m) / p * p = v - m := div_mul_cancel₀ _ hp0
  have h1 : ((⌊(v - m) / p + 1 / 2⌋ : ℤ) : ℚ) ≤ (v - m) / p + 1 / 2 := Int.floor_le _
  have h2 : (v - m) / p + 1 / 2 < ((⌊(v - m) / p + 1 / 2⌋ : ℤ) : ℚ) + 1 :=
    Int.lt_floor_add_one _
  have key : m + ((⌊(v - m) / p + 1 / 2⌋ : ℤ) : ℚ) * p - v =
      (((⌊(v - m) / p + 1 / 2⌋ : ℤ) : ℚ) - (v - m) / p) * p := by
    nlinarith [hv]
  rw [quantQ, qround, key, abs_mul, abs_of_pos hp]
  have h3 : |((⌊(v - m) / p + 1 / 2⌋ : ℤ) : ℚ) - (v - m) / p| ≤ 1 / 2 :=
    abs_le.mpr ⟨by linarith, by linarith⟩
  calc |((⌊(v - m) / p + 1 / 2⌋ : ℤ) : ℚ) - (v - m) / p| * p ≤ 1 / 2 * p :=
        mul_le_mul_of_nonneg_right h3 (le_of_lt hp)
    _ = p / 2 := by ring

theorem mg2Channel_length (vs : List ℚ) (p : ℚ) :
    (mg2DecodeChannel (mg2EncodeChannel vs p).1 (mg2EncodeChannel vs p).2 p).length =
      vs.length := by
  unfold mg2EncodeChannel mg2DecodeChannel
  rw [deltaDecodeZ_deltaEncodeZ]
  simp

theorem mg2Channel_bound (vs : List ℚ) (p : ℚ) (hp : 0 < p) (i : Nat) (hi : i < vs.length) :
    |(mg2DecodeChannel (mg2EncodeChannel vs p).1 (mg2EncodeChannel vs p).2 p).getD i 0 -
      vs.getD i 0| ≤ p / 2 := by
  unfold mg2EncodeChannel mg2DecodeChannel
  rw [deltaDecodeZ_deltaEncodeZ, List.map_map]
  rw [List.getD_eq_getElem _ _ (by simpa using hi), List.getD_eq_getElem _ _ hi]
  rw [List.getElem_map]
  exact quant_dequant vs[i] (qmin vs) p hp

theorem permuteL_getD (pl : List Nat) (vs : List ℚ) (i : Nat) (hi : i < pl.length) :
    (permuteL pl vs).getD i 0 = vs.getD (pl.getD i 0) 0 := by
  unfold permuteL
  rw [List.getD_eq_getElem _ _ (by simpa using hi), List.getElem_map,
    List.getD_eq_getElem _ _ hi]
/-! The MG1 reindexing is a relabelling along a permutation of the
vertices, so it preserves the mesh invariant. -/

theorem contains_iff_mem (l : List Nat) (x : Nat) : l.contains x = true ↔ x ∈ l := by
  simp

theorem insertSorted_perm (le : α → α → Bool) (x : α) (l : List α) :
    List.Perm (insertSorted le x l) (x :: l) := by
  induction l with
  | nil => exact List.Perm.refl _
  | cons y r ih =>
    by_cases h : le x y = true
    · simp only [insertSorted, if_pos h]
      exact List.Perm.refl _
    · simp only [insertSorted, if_neg h]
      exact (List.Perm.cons y ih).trans (List.Perm.swap x y r)

theorem sortBy_perm (le : α → α → Bool) (l : List α) : List.Perm (sortBy le l) l := by
  induction l with
  | nil => exact List.Perm.refl _
  | cons x r ih =>
    have h1 : sortBy le (x :: r) = insertSorted le x (sortBy le r) := rfl
    rw [h1]
    exact (insertSorted_perm le x (sortBy le r)).trans (List.Perm.cons x ih)

theorem mem_dedupGo (l : List Nat) :
    ∀ (seen : List Nat) (x : Nat),
      x ∈ dedupGo seen l ↔ x ∈ l ∧ ¬ seen.contains x = true := by
  induction l with
  | nil =>
    intro seen x
    simp [dedupGo]
  | cons y r ih =>
    intro seen x
    by_cases hy : seen.contains y = true
    · rw [dedupGo, if_pos hy, ih seen x]
      constructor
      · rintro ⟨hr, hc⟩
        exact ⟨List.mem_cons_of_mem y hr, hc⟩
      · rintro ⟨hyr, hc⟩
        rcases List.mem_cons.mp hyr with rfl | hr
        · exact absurd hy hc
        · exact ⟨hr, hc⟩
    · rw [dedupGo, if_neg hy]
      constructor
      · intro hx
        rcases List.mem_cons.mp hx with rfl | hx2
        · exact ⟨List.mem_cons_self _ _, hy⟩
        · have h2 := (ih (y :: seen) x).mp hx2
          refine ⟨List.mem_cons_of_mem y h2.1, fun hcx => h2.2 ?_⟩
          rw [List.contains_cons]
          simp only [Bool.or_eq_true]
          exact Or.inr hcx
      · rintro ⟨hyr, hc⟩
        rcases List.mem_cons.mp hyr with rfl | hr
        · exact List.mem_cons_self _ _
        · by_cases hxy : x = y
          · subst hxy
            exact List.mem_cons_self _ _
          · apply List.mem_cons_of_mem
            apply (ih (y :: seen) x).mpr
            refine ⟨hr, ?_⟩
            rw [List.contains_cons]
            simp only [Bool.or_eq_true, beq_iff_eq]
            rintro (h | h)
            · exact hxy h
            · exact hc h

theorem dedupGo_nodup (l : List Nat) : ∀ seen, (dedupGo seen l).Nodup := by
  induction l with
  | nil =>
    intro seen
    simp [dedupGo]
  | cons y r ih =>
    intro seen
    by_cases hy : seen.contains y = true
    · rw [dedupGo, if_pos hy]
      exact ih seen
    · rw [dedupGo, if_neg hy]
      refine List.nodup_cons.mpr ⟨fun hmem => ?_, ih (y :: seen)⟩
      have h2 := (mem_dedupGo r (y :: seen) y).mp hmem
      apply h2.2
      rw [List.contains_cons]
      simp

theorem mem_dedupFirst (l : List Nat) (x : Nat) : x ∈ dedupFirst l ↔ x ∈ l := by
  unfold dedupFirst
  rw [mem_dedupGo]
  simp

theorem dedupFirst_nodup (l : List Nat) : (dedupFirst l).Nodup := dedupGo_nodup l []

theorem idxOf_lt_length (x : Nat) (l : List Nat) (h : x ∈ l) : idxOf x l < l.length := by
  induction l with
  | nil => cases h
  | cons y r ih =>
    by_cases hy : (y == x) = true
    · simp [idxOf, hy]
    · have hxr : x ∈ r := by
        rcases List.mem_cons.mp h with rfl | hr
        · exact absurd (by simp) hy
        · exact hr
      simp only [idxOf, if_neg hy, List.length_cons]
      exact Nat.succ_lt_succ (ih hxr)

theorem perm_append_filter_range (fu : List Nat) (n : Nat) (hnd : fu.Nodup)
    (hsub : ∀ x ∈ fu, x < n) :
    List.Perm (fu ++ (List.range n).filter (fun v => !(fu.contains v))) (List.range n) := by
  have h1 : List.Perm fu ((List.range n).filter (fun v => fu.contains v)) := by
    rw [List.perm_ext_iff_of_nodup hnd (List.Nodup.filter _ (List.nodup_range n))]
    intro a
    simp only [List.mem_filter, List.mem_range]
    constructor
    · intro ha
      exact ⟨hsub a ha, (contains_iff_mem fu a).mpr ha⟩
    · rintro ⟨-, ha⟩
      exact (contains_iff_mem fu a).mp ha
  exact (h1.append_right _).trans (List.filter_append_perm _ _)

theorem rotTri_bound (u : Tri) (n : Nat) (h1 : u.1 < n) (h2 : u.2.1 < n) (h3 : u.2.2 < n) :
    (rotTri u).1 < n ∧ (rotTri u).2.1 < n ∧ (rotTri u).2.2 < n := by
  obtain ⟨a, b, c⟩ := u
  dsimp only at h1 h2 h3
  unfold rotTri
  split_ifs <;> exact ⟨by assumption, by assumption, by assumption⟩

theorem flatTris_mem_bound (n : Nat) : ∀ (ts : List Tri),
    (∀ t ∈ ts, t.1 < n ∧ t.2.1 < n ∧ t.2.2 < n) → ∀ w ∈ flatTris ts, w < n := by
  intro ts
  induction ts with
  | nil =>
    intro _ w hw
    cases hw
  | cons t rest ih =>
    intro h w hw
    obtain ⟨a, b, c⟩ := t
    simp only [flatTris, List.mem_cons] at hw
    rcases hw with hw | hw | hw | hw
    · exact hw ▸ (h (a, b, c) (by simp)).1
    · exact hw ▸ (h (a, b, c) (by simp)).2.1
    · exact hw ▸ (h (a, b, c) (by simp)).2.2
    · exact ih (fun t ht => h t (by simp [ht])) w hw

theorem mem_flatTris (ts : List Tri) (t : Tri) (ht : t ∈ ts) :
    t.1 ∈ flatTris ts ∧ t.2.1 ∈ flatTris ts ∧ t.2.2 ∈ flatTris ts := by
  induction ts with
  | nil => cases ht
  | cons u rest ih =>
    obtain ⟨a, b, c⟩ := u
    rcases List.mem_cons.mp ht with rfl | hr
    · simp [flatTris]
    · have h2 := ih hr
      simp only [flatTris, List.mem_cons]
      exact ⟨Or.inr (Or.inr (Or.inr h2.1)), Or.inr (Or.inr (Or.inr h2.2.1)),
        Or.inr (Or.inr (Or.inr h2.2.2))⟩

theorem permChunks_length (w : Nat) (data : List Nat) : ∀ (pm : List Nat),
    (∀ o ∈ pm, w * o + w ≤ data.length) →
    (permChunks pm w data).length = w * pm.length := by
  intro pm
  induction pm with
  | nil =>
    intro _
    simp [permChunks]
  | cons o r ih =>
    intro h
    have ho := h o (by simp)
    have hr := ih (fun x hx => h x (by simp [hx]))
    simp only [permChunks, List.map_cons, List.flatten_cons, List.length_append,
      List.length_cons] at hr ⊢
    rw [hr]
    simp only [List.length_take, List.length_drop]
    rw [Nat.mul_succ]
    omega

theorem permChunks_mem (pm : List Nat) (w : Nat) (data : List Nat) :
    ∀ x ∈ permChunks pm w data, x ∈ data := by
  intro x hx
  unfold permChunks at hx
  simp only [List.mem_flatten, List.mem_map] at hx
  obtain ⟨chunk, ⟨o, ho, hchunk⟩, hxc⟩ := hx
  subst hchunk
  exact (List.drop_sublist _ _).subset ((List.take_sublist _ _).subset hxc)

theorem trisInRange_iff (ts : List Tri) (n : Nat) :
    trisInRange ts n = true ↔ ∀ t ∈ ts, t.1 < n ∧ t.2.1 < n ∧ t.2.2 < n := by
  simp [trisInRange, List.all_eq_true, Bool.and_eq_true, decide_eq_true_eq, and_assoc]

theorem wfB_permuted (M : Mesh) (pm : List Nat) (tris2 : List Tri)
    (hwf : wfB M = true)
    (hplen : pm.length = M.vertices.length / 3)
    (hpmem : ∀ o ∈ pm, o < M.vertices.length / 3)
    (htlen : tris2.length = M.tris.length)
    (htb : ∀ t ∈ tris2, t.1 < M.vertices.length / 3 ∧ t.2.1 < M.vertices.length / 3 ∧
      t.2.2 < M.vertices.length / 3) :
    wfB { vertices := permChunks pm 3 M.vertices, tris := tris2,
          normals := M.normals.map (permChunks pm 3),
          texMaps := M.texMaps.map (fun tm => { tm with coords := permChunks pm 2 tm.coords }),
          attribMaps := M.attribMaps.map
            (fun am => { am with values := permChunks pm 4 am.values }),
          comment := M.comment } = true := by
  simp only [wfB, Bool.and_eq_true, beq_iff_eq, decide_eq_true_eq, List.all_eq_true] at hwf
  obtain ⟨⟨⟨⟨⟨⟨⟨⟨⟨⟨⟨⟨hmod, hv1⟩, hvlt⟩, hv32⟩, ht1⟩, htlt⟩, htr⟩, hnw⟩, htm8⟩, htmw⟩,
    ham8⟩, hamw⟩, hcm⟩ := hwf
  have hvplen : (permChunks pm 3 M.vertices).length = M.vertices.length := by
    have hb : ∀ o ∈ pm, 3 * o + 3 ≤ M.vertices.length := by
      intro o ho
      have := hpmem o ho
      omega
    rw [permChunks_length 3 M.vertices pm hb, hplen]
    omega
  simp only [wfB, Bool.and_eq_true, beq_iff_eq, decide_eq_true_eq, List.all_eq_true]
  refine ⟨⟨⟨⟨⟨⟨⟨⟨⟨⟨⟨⟨?_, ?_⟩, ?_⟩, ?_⟩, ?_⟩, ?_⟩, ?_⟩, ?_⟩, ?_⟩, ?_⟩, ?_⟩, ?_⟩, ?_⟩
  · rw [hvplen]
    omega
  · rw [hvplen]
    exact hv1
  · rw [hvplen]
    exact hvlt
  · intro x hx
    exact hv32 x (permChunks_mem pm 3 M.vertices x hx)
  · rw [htlen]
    exact ht1
  · rw [htlen]
    exact htlt
  · simp only [hvplen]
    exact (trisInRange_iff _ _).mpr htb
  · simp only [hvplen]
    rcases hn : M.normals with _ | ns
    · simp [normWfB]
    · rw [hn] at hnw
      simp only [normWfB, Bool.and_eq_true, beq_iff_eq, List.all_eq_true,
        decide_eq_true_eq] at hnw
      obtain ⟨hnl, hn32⟩ := hnw
      have hb : ∀ o ∈ pm, 3 * o + 3 ≤ ns.length := by
        intro o ho
        have := hpmem o ho
        rw [hnl]
        omega
      show normWfB M.vertices.length (some (permChunks pm 3 ns)) = true
      simp only [normWfB, Bool.and_eq_true, beq_iff_eq, List.all_eq_true, decide_eq_true_eq]
      refine ⟨?_, ?_⟩
      · rw [permChunks_length 3 ns pm hb, hplen]
        omega
      · intro x hx
        exact hn32 x (permChunks_mem pm 3 ns x hx)
  · simpa using htm8
  · intro tm2 htm2
    simp only [List.mem_map] at htm2
    obtain ⟨tm, htm, rfl⟩ := htm2
    have hw := htmw tm htm
    simp only [texWfB, Bool.and_eq_true, beq_iff_eq, decide_eq_true_eq,
      List.all_eq_true] at hw
    obtain ⟨⟨⟨h1, h2⟩, h3⟩, h4⟩ := hw
    have hb : ∀ o ∈ pm, 2 * o + 2 ≤ tm.coords.length := by
      intro o ho
      have := hpmem o ho
      rw [h3]
      omega
    simp only [texWfB, Bool.and_eq_true, beq_iff_eq, decide_eq_true_eq, List.all_eq_true,
      hvplen]
    refine ⟨⟨⟨h1, h2⟩, ?_⟩, ?_⟩
    · rw [permChunks_length 2 tm.coords pm hb, hplen]
    · intro x hx
      exact h4 x (permChunks_mem pm 2 tm.coords x hx)
  · simpa using ham8
  · intro am2 ham2
    simp only [List.mem_map] at ham2
    obtain ⟨am, ham, rfl⟩ := ham2
    have hw := hamw am ham
    simp only [attrWfB, Bool.and_eq_true, beq_iff_eq, decide_eq_true_eq,
      List.all_eq_true] at hw
    obtain ⟨⟨h1, h2⟩, h3⟩ := hw
    have hb : ∀ o ∈ pm, 4 * o + 4 ≤ am.values.length := by
      intro o ho
      have := hpmem o ho
      rw [h2]
      omega
    simp only [attrWfB, Bool.and_eq_true, beq_iff_eq, decide_eq_true_eq, List.all_eq_true,
      hvplen]
    refine ⟨⟨h1, ?_⟩, ?_⟩
    · rw [permChunks_length 4 am.values pm hb, hplen]
    · intro x hx
      exact h3 x (permChunks_mem pm 4 am.values x hx)
  · exact hcm

theorem wfB_reindexMG1 (M : Mesh) (hwf : wfB M = true) : wfB (reindexMG1 M) = true := by
  have hwf2 := hwf
  simp only [wfB, Bool.and_eq_true, beq_iff_eq, decide_eq_true_eq, List.all_eq_true] at hwf2
  obtain ⟨⟨⟨⟨⟨⟨⟨⟨⟨⟨⟨⟨hmod, hv1⟩, hvlt⟩, hv32⟩, ht1⟩, htlt⟩, htr⟩, hnw⟩, htm8⟩, htmw⟩,
    ham8⟩, hamw⟩, hcm⟩ := hwf2
  have hsp := sortBy_perm triLeB (M.tris.map rotTri)
  have hslen : (sortBy triLeB (M.tris.map rotTri)).length = M.tris.length := by
    rw [hsp.length_eq, List.length_map]
  have hsb : ∀ t ∈ sortBy triLeB (M.tris.map rotTri),
      t.1 < M.vertices.length / 3 ∧ t.2.1 < M.vertices.length / 3 ∧
        t.2.2 < M.vertices.length / 3 := by
    intro t ht
    obtain ⟨u, hu, rfl⟩ := List.mem_map.mp (hsp.mem_iff.mp ht)
    have hub := (trisInRange_iff M.tris (M.vertices.length / 3)).mp htr u hu
    exact rotTri_bound u _ hub.1 hub.2.1 hub.2.2
  set fu := dedupFirst (flatTris (sortBy triLeB (M.tris.map rotTri))) with hfu
  set pm := fu ++ (List.range (M.vertices.length / 3)).filter (fun v => !(fu.contains v))
    with hpm
  have hfnd : fu.Nodup := by
    rw [hfu]
    exact dedupFirst_nodup _
  have hfsub : ∀ x ∈ fu, x < M.vertices.length / 3 := by
    intro x hx
    rw [hfu] at hx
    exact flatTris_mem_bound _ _ hsb x ((mem_dedupFirst _ x).mp hx)
  have hpp : List.Perm pm (List.range (M.vertices.length / 3)) := by
    rw [hpm]
    exact perm_append_filter_range fu _ hfnd hfsub
  have hplen : pm.length = M.vertices.length / 3 := by
    rw [hpp.length_eq, List.length_range]
  have hpmem : ∀ o ∈ pm, o < M.vertices.length / 3 :=
    fun o ho => List.mem_range.mp (hpp.mem_iff.mp ho)
  have htlen2 : ((sortBy triLeB (M.tris.map rotTri)).map
      (fun t => (idxOf t.1 pm, idxOf t.2.1 pm, idxOf t.2.2 pm))).length = M.tris.length := by
    rw [List.length_map, hslen]
  have htb2 : ∀ t ∈ (sortBy triLeB (M.tris.map rotTri)).map
      (fun t => (idxOf t.1 pm, idxOf t.2.1 pm, idxOf t.2.2 pm)),
      t.1 < M.vertices.length / 3 ∧ t.2.1 < M.vertices.length / 3 ∧
        t.2.2 < M.vertices.length / 3 := by
    intro t ht
    obtain ⟨u, hu, rfl⟩ := List.mem_map.mp ht
    have hm := mem_flatTris _ u hu
    have h1 : u.1 ∈ pm := by
      rw [hpm]
      refine List.mem_append.mpr (Or.inl ?_)
      rw [hfu]
      exact (mem_dedupFirst _ _).mpr hm.1
    have h2 : u.2.1 ∈ pm := by
      rw [hpm]
      refine List.mem_append.mpr (Or.inl ?_)
      rw [hfu]
      exact (mem_dedupFirst _ _).mpr hm.2.1
    have h3 : u.2.2 ∈ pm := by
      rw [hpm]
      refine List.mem_append.mpr (Or.inl ?_)
      rw [hfu]
      exact (mem_dedupFirst _ _).mpr hm.2.2
    exact ⟨hplen ▸ idxOf_lt_length u.1 pm h1, hplen ▸ idxOf_lt_length u.2.1 pm h2,
      hplen ▸ idxOf_lt_length u.2.2 pm h3⟩
  have hre : reindexMG1 M =
      { vertices := permChunks pm 3 M.vertices,
        tris := (sortBy triLeB (M.tris.map rotTri)).map
          (fun t => (idxOf t.1 pm, idxOf t.2.1 pm, idxOf t.2.2 pm)),
        normals := M.normals.map (permChunks pm 3),
        texMaps := M.texMaps.map (fun tm => { tm with coords := permChunks pm 2 tm.coords }),
        attribMaps := M.attribMaps.map
          (fun am => { am with values := permChunks pm 4 am.values }),
        comment := M.comment } := by
    rw [hpm, hfu]
    rfl
  rw [hre]
  exact wfB_permuted M pm _ hwf hplen hpmem htlen2 htb2


/-! The claims. -/

/-- Claim C3 (amended): the byte interleaver defined by
output[k*N + j] = word[j].bytes[k] is inverted by `deinterleave`: for every
byte array B whose length is a multiple of 4, deinterleave (interleave B)
= B. (Applying `interleave` itself twice does not in general return B;
see the counterexample.) -/
theorem c3_deinterleave_inverts_interleave :
    ∀ B : List Nat, B.length % 4 = 0 → deinterleave (interleave B) = B :=
  fun B h => deinterleave_interleave B h

/-- Witness for claim C3 at the concrete eight-byte array 0..7. -/
theorem c3_deinterleave_inverts_interleave_witness :
    ([0, 1, 2, 3, 4, 5, 6, 7] : List Nat).length % 4 = 0 ∧
      deinterleave (interleave [0, 1, 2, 3, 4, 5, 6, 7]) = [0, 1, 2, 3, 4, 5, 6, 7] :=
  ⟨by decide, c3_deinterleave_inverts_interleave [0, 1, 2, 3, 4, 5, 6, 7] (by decide)⟩

/-- Counterexample to claim C3 as stated: the eight-byte array 0..7 has
length a multiple of 4, yet applying the interleave operation twice does
not return it (interleaving twice gives [0, 2, 4, 6, 1, 3, 5, 7]). -/
theorem c3_interleave_twice_cex :
    ([0, 1, 2, 3, 4, 5, 6, 7] : List Nat).length % 4 = 0 ∧
      interleave (interleave [0, 1, 2, 3, 4, 5, 6, 7]) ≠ [0, 1, 2, 3, 4, 5, 6, 7] := by
  decide

/-- Claim C1 (amended): for every well-formed mesh M with no NaN or Inf
values, decoding the RAW encoding of M yields M bit-exactly for every
array and string; decoding the MG1 encoding of M always yields the MG1
canonically reindexed mesh `reindexMG1 M` (the pre-processing rotates and
sorts the triangles and relabels the vertices, and the permutation is not
stored in the file); consequently the MG1 round trip is bit-exact if and
only if M is already in canonical form (`reindexMG1 M = M`). -/
theorem c1_raw_mg1_roundtrip (M : Mesh) (hwf : wfB M = true) (_hfin : noNaNInfB M = true) :
    decodeFile (encodeFile M false) = some M ∧
      decodeFile (encodeFile M true) = some (reindexMG1 M) ∧
      (decodeFile (encodeFile M true) = some M ↔ reindexMG1 M = M) := by
  have hraw : decodeFile (encodeFile M false) = some M := by
    have h := decodeFile_serializeMesh M false hwf
    simpa [encodeFile] using h
  have hmg1 : decodeFile (encodeFile M true) = some (reindexMG1 M) := by
    have h := decodeFile_serializeMesh (reindexMG1 M) true (wfB_reindexMG1 M hwf)
    simpa [encodeFile] using h
  refine ⟨hraw, hmg1, ?_, ?_⟩
  · intro h
    exact Option.some.inj (hmg1.symm.trans h)
  · intro h
    rw [hmg1, h]

/-- Witness for claim C1: the canonical mesh `meshW` (one triangle,
normals, a texture map, an attribute map and a comment) round-trips
bit-exactly through both RAW and MG1, and the non-canonical mesh `meshNC`
round-trips through MG1 to its canonical reindexing. -/
theorem c1_raw_mg1_roundtrip_witness :
    wfB meshW = true ∧ noNaNInfB meshW = true ∧ reindexMG1 meshW = meshW ∧
      decodeFile (encodeFile meshW false) = some meshW ∧
      decodeFile (encodeFile meshW true) = some meshW ∧
      wfB meshNC = true ∧ noNaNInfB meshNC = true ∧
      decodeFile (encodeFile meshNC false) = some meshNC ∧
      decodeFile (encodeFile meshNC true) = some (reindexMG1 meshNC) :=
  ⟨by decide, by decide, by decide,
    (c1_raw_mg1_roundtrip meshW (by decide) (by decide)).1,
    (c1_raw_mg1_roundtrip meshW (by decide) (by decide)).2.2.mpr (by decide),
    by decide, by decide,
    (c1_raw_mg1_roundtrip meshNC (by decide) (by decide)).1,
    (c1_raw_mg1_roundtrip meshNC (by decide) (by decide)).2.1⟩

/-- Counterexample to claim C1 as stated: `meshNC` is well formed with no
NaN or Inf values, but decoding its MG1 encoding does not return it
bit-exactly: its triangle (1,2,0) is rewritten to (0,1,2) by the MG1
reindexing, which the decoder cannot undo. -/
theorem c1_mg1_not_bitexact_cex :
    wfB meshNC = true ∧ noNaNInfB meshNC = true ∧
      decodeFile (encodeFile meshNC true) ≠ some meshNC := by
  decide

/-- Claim C2 (amended): for every channel (vertex coordinates per axis,
the spherical normal components, texture coordinates, attribute values),
every positive precision p and every MG2 reindex permutation, each value
produced by decoding the MG2 channel encoding is within p/2 of the input
value it encodes, namely the one at the permuted position; when the
stream is taken in the already-reindexed order the indexwise bound of the
original claim holds. The indexwise bound against the pre-reindex input
fails in general (see the counterexample). -/
theorem c2_mg2_half_precision_bound :
    ∀ (vs : List ℚ) (tris : List Tri) (cellOf : Nat → Nat) (n : Nat) (p : ℚ), 0 < p →
      (∀ i, i < (mg2ReindexPerm tris cellOf n).length →
        |(mg2DecodeChannel
            (mg2EncodeChannel (permuteL (mg2ReindexPerm tris cellOf n) vs) p).1
            (mg2EncodeChannel (permuteL (mg2ReindexPerm tris cellOf n) vs) p).2 p).getD i 0 -
          vs.getD ((mg2ReindexPerm tris cellOf n).getD i 0) 0| ≤ p / 2) ∧
      (∀ ws : List ℚ, ∀ i, i < ws.length →
        |(mg2DecodeChannel (mg2EncodeChannel ws p).1 (mg2EncodeChannel ws p).2 p).getD i 0 -
          ws.getD i 0| ≤ p / 2) := by
  intro vs tris cellOf n p hp
  constructor
  · intro i hi
    have hlen : i < (permuteL (mg2ReindexPerm tris cellOf n) vs).length := by
      simpa [permuteL] using hi
    have hb := mg2Channel_bound (permuteL (mg2ReindexPerm tris cellOf n) vs) p hp i hlen
    rwa [permuteL_getD _ _ i hi] at hb
  · intro ws i hi
    exact mg2Channel_bound ws p hp i hi

/-- Witness for claim C2: one channel value 1/3 quantized with precision 1
is reconstructed within 1/2. -/
theorem c2_mg2_half_precision_bound_witness :
    (0 : ℚ) < 1 ∧
      |(mg2DecodeChannel (mg2EncodeChannel [(1 : ℚ) / 3] 1).1
          (mg2EncodeChannel [(1 : ℚ) / 3] 1).2 1).getD 0 0 -
        ([(1 : ℚ) / 3]).getD 0 0| ≤ 1 / 2 :=
  ⟨by norm_num,
    (c2_mg2_half_precision_bound [(1 : ℚ) / 3] [] (fun _ => 0) 0 1 (by norm_num)).2
      [(1 : ℚ) / 3] 0 (by simp)⟩

/-- Counterexample to claim C2 as stated: for the single-triangle mesh
with triangle (2,1,0) and channel values [0, 10, 20] at precision 1, the
MG2 reindexing (for every grid heuristic the single triangle is rotated to
(0,2,1), so the relabelled vertex 1 is old vertex 2) makes the decoded
value at index 1 equal 20 while the input at index 1 is 10, violating the
indexwise half-precision bound. -/
theorem c2_mg2_indexwise_cex :
    (0 : ℚ) < 1 ∧
      ¬ |(mg2DecodeChannel
          (mg2EncodeChannel (permuteL (mg2ReindexPerm [(2, 1, 0)] (fun _ => 0) 3) [0, 10, 20]) 1).1
          (mg2EncodeChannel (permuteL (mg2ReindexPerm [(2, 1, 0)] (fun _ => 0) 3) [0, 10, 20]) 1).2
          1).getD 1 0 -
        ([0, 10, 20] : List ℚ).getD 1 0| ≤ 1 / 2 := by
  have hperm : mg2ReindexPerm [(2, 1, 0)] (fun _ => 0) 3 = [0, 2, 1] := by decide
  have hpl : permuteL [0, 2, 1] [0, 10, 20] = ([0, 20, 10] : List ℚ) := by rfl
  have hdec : mg2DecodeChannel (mg2EncodeChannel ([0, 20, 10] : List ℚ) 1).1
      (mg2EncodeChannel ([0, 20, 10] : List ℚ) 1).2 1 = [0, 20, 10] := by
    norm_num [mg2EncodeChannel, mg2DecodeChannel, qmin, quantQ, qround, deltaEncodeZ,
      deltaDecodeZ, min_def, Int.floor_eq_iff]
  constructor
  · norm_num
  · rw [hperm, hpl, hdec]
    norm_num [List.getD]

/-- Claim C7: the API version macro equals 0x00000004 while the on-disk
format version the encoder writes at byte offset 4 equals 5, and the
decoder rejects any file whose version field is not 5, leaving an IMPORT
context Empty with the sticky error FORMAT_ERROR. -/
theorem c7_version_fields :
    CTM_API_VERSION = 4 ∧ FORMAT_VERSION = 5 ∧
      (∀ (M : Mesh) (mg1 : Bool), ((encodeFile M mg1).drop 4).take 4 = writeU32 5) ∧
      (∀ (v : Nat) (b : List Nat), v < 4294967296 → v ≠ 5 →
        decodeFile (writeU32 MAGIC ++ (writeU32 v ++ b)) = none) ∧
      (∀ (c : Ctx) (v : Nat) (b : List Nat), c.mode = CTM_IMPORT → v < 4294967296 → v ≠ 5 →
        (ctmLoad c (writeU32 MAGIC ++ (writeU32 v ++ b))).err = CTM_FORMAT_ERROR ∧
        (ctmLoad c (writeU32 MAGIC ++ (writeU32 v ++ b))).mesh = none) := by
  refine ⟨rfl, rfl, ?_, ?_, ?_⟩
  · intro M mg1
    cases mg1 <;> simp [encodeFile, serializeMesh, writeU32, MAGIC, FORMAT_VERSION]
  · intro v b hv hne
    have h1 : readU32 (writeU32 MAGIC ++ (writeU32 v ++ b)) =
        some (MAGIC, writeU32 v ++ b) := readU32_writeU32 _ _ (by decide)
    have h2 : readU32 (writeU32 v ++ b) = some (v, b) := readU32_writeU32 _ _ hv
    simp [decodeFile, h1, h2, FORMAT_VERSION, hne]
  · intro c v b hmode hv hne
    have h1 : readU32 (writeU32 MAGIC ++ (writeU32 v ++ b)) =
        some (MAGIC, writeU32 v ++ b) := readU32_writeU32 _ _ (by decide)
    have h2 : readU32 (writeU32 v ++ b) = some (v, b) := readU32_writeU32 _ _ hv
    have hd : decodeFile (writeU32 MAGIC ++ (writeU32 v ++ b)) = none := by
      simp [decodeFile, h1, h2, FORMAT_VERSION, hne]
    constructor <;> simp [ctmLoad, hmode, hd]

/-- Witness for claim C7 at the concrete version value 4 (the API macro
value) and the mesh `meshW`. -/
theorem c7_version_fields_witness :
    ((encodeFile meshW false).drop 4).take 4 = writeU32 5 ∧
      decodeFile (writeU32 MAGIC ++ (writeU32 4 ++ [])) = none ∧
      (ctmLoad importCtx (writeU32 MAGIC ++ (writeU32 4 ++ []))).err = CTM_FORMAT_ERROR :=
  ⟨c7_version_fields.2.2.1 meshW false,
    c7_version_fields.2.2.2.1 4 [] (by decide) (by decide),
    (c7_version_fields.2.2.2.2 importCtx 4 [] rfl (by decide) (by decide)).1⟩

/-- Claim C10: the eight texture-map enumerators are the consecutive
values 0x0700..0x0707, the eight attribute-map enumerators are
0x0800..0x0807 (so the i-th map enumerator is the first one plus i-1),
and all CTMenum values are pairwise distinct. -/
theorem c10_enum_layout :
    ((List.range 8).all fun i => ctmTexMapEnums.getD i 0 == CTM_TEX_MAP_1 + i) = true ∧
      ((List.range 8).all fun i => ctmAttribMapEnums.getD i 0 == CTM_ATTRIB_MAP_1 + i) = true ∧
      CTM_TEX_MAP_1 = 0x0700 ∧ CTM_TEX_MAP_8 = 0x0707 ∧
      CTM_ATTRIB_MAP_1 = 0x0800 ∧ CTM_ATTRIB_MAP_8 = 0x0807 ∧
      ctmEnumValues.Nodup := by
  decide

/-! Sticky errors and the context state machine. -/

theorem stepOp_err_of_fail (c : Ctx) (op : CtmOp) (hf : okOp c op = false) :
    (stepOp c op).err ≠ CTM_NONE := by
  cases op with
  | load f =>
    rcases hd : decodeFile f with _ | m
    · by_cases hm : c.mode = CTM_IMPORT <;>
        simp [stepOp, ctmLoad, hm, hd, CTM_FORMAT_ERROR, CTM_INVALID_OPERATION, CTM_NONE]
    · have hm : ¬ c.mode = CTM_IMPORT := by
        intro hm
        simp [okOp, hm, hd] at hf
      simp [stepOp, ctmLoad, hm, CTM_INVALID_OPERATION, CTM_NONE]
  | save =>
    by_cases hm : c.mode = CTM_EXPORT
    · rcases hme : c.mesh with _ | m
      · simp [stepOp, ctmSave, hm, hme, CTM_INVALID_OPERATION, CTM_NONE]
      · by_cases hw : wfB m = true
        · exfalso
          simp [okOp, hm, hme, hw] at hf
        · simp [stepOp, ctmSave, hm, hme, hw, CTM_INVALID_MESH, CTM_NONE]
    · simp [stepOp, ctmSave, hm, CTM_INVALID_OPERATION, CTM_NONE]
  | defineMesh vs ts ns =>
    by_cases hm : c.mode = CTM_EXPORT
    · have hz : vs.length = 0 ∨ ts.length = 0 := by
        by_contra hcon
        push_neg at hcon
        simp [okOp, hm, hcon.1, hcon.2] at hf
      have hz2 : vs = [] ∨ ts = [] := by
        rcases hz with h | h
        · exact Or.inl (List.length_eq_zero.mp h)
        · exact Or.inr (List.length_eq_zero.mp h)
      simp [stepOp, ctmDefineMesh, hm, hz2, CTM_INVALID_ARGUMENT, CTM_NONE]
    · simp [stepOp, ctmDefineMesh, hm, CTM_INVALID_OPERATION, CTM_NONE]
  | addTexMap co nm fn =>
    by_cases hm : c.mode = CTM_EXPORT
    · rcases hme : c.mesh with _ | m
      · simp [stepOp, ctmAddTexMap, hm, hme, CTM_INVALID_OPERATION, CTM_NONE]
      · have hnm : nm.length = 0 := by
          by_contra hcon
          simp [okOp, hm, hme, hcon] at hf
        simp [stepOp, ctmAddTexMap, hm, hme, hnm, CTM_INVALID_ARGUMENT, CTM_NONE]
    · simp [stepOp, ctmAddTexMap, hm, CTM_INVALID_OPERATION, CTM_NONE]
  | addAttribMap av nm =>
    by_cases hm : c.mode = CTM_EXPORT
    · rcases hme : c.mesh with _ | m
      · simp [stepOp, ctmAddAttribMap, hm, hme, CTM_INVALID_OPERATION, CTM_NONE]
      · have hnm : nm.length = 0 := by
          by_contra hcon
          simp [okOp, hm, hme, hcon] at hf
        simp [stepOp, ctmAddAttribMap, hm, hme, hnm, CTM_INVALID_ARGUMENT, CTM_NONE]
    · simp [stepOp, ctmAddAttribMap, hm, CTM_INVALID_OPERATION, CTM_NONE]

theorem stepOp_err_of_ok (c : Ctx) (op : CtmOp) (hs : okOp c op = true) :
    (stepOp c op).err = c.err := by
  cases op with
  | load f =>
    simp only [okOp, Bool.and_eq_true, beq_iff_eq] at hs
    obtain ⟨hm, hd⟩ := hs
    obtain ⟨m, hm2⟩ := Option.isSome_iff_exists.mp hd
    simp [stepOp, ctmLoad, hm, hm2]
  | save =>
    simp only [okOp, Bool.and_eq_true, beq_iff_eq] at hs
    obtain ⟨hm, hw⟩ := hs
    rcases hme : c.mesh with _ | m
    · rw [hme] at hw
      simp at hw
    · rw [hme] at hw
      simp at hw
      simp [stepOp, ctmSave, hm, hme, hw]
  | defineMesh vs ts ns =>
    simp only [okOp, Bool.and_eq_true, beq_iff_eq, Bool.not_eq_true', beq_eq_false_iff_ne,
      ne_eq] at hs
    obtain ⟨⟨hm, hvs⟩, hts⟩ := hs
    simp [stepOp, ctmDefineMesh, hm, hvs, hts]
  | addTexMap co nm fn =>
    simp only [okOp, Bool.and_eq_true, beq_iff_eq, Bool.not_eq_true', beq_eq_false_iff_ne,
      ne_eq] at hs
    obtain ⟨⟨hm, hmesh⟩, hnm⟩ := hs
    obtain ⟨m, hm2⟩ := Option.isSome_iff_exists.mp hmesh
    simp [stepOp, ctmAddTexMap, hm, hm2, hnm]
  | addAttribMap av nm =>
    simp only [okOp, Bool.and_eq_true, beq_iff_eq, Bool.not_eq_true', beq_eq_false_iff_ne,
      ne_eq] at hs
    obtain ⟨⟨hm, hmesh⟩, hnm⟩ := hs
    obtain ⟨m, hm2⟩ := Option.isSome_iff_exists.mp hmesh
    simp [stepOp, ctmAddAttribMap, hm, hm2, hnm]

/-- Claim C4: for every context and every operation that fails, the sticky
error slot holds the failure kind (a nonzero code): `ctmGetError` returns
it once and returns `CTM_NONE` on the immediately following call, and a
subsequent successful operation does not clear the stored error (a
successful operation leaves the error slot untouched). -/
theorem c4_error_stickiness :
    ∀ (c : Ctx) (op : CtmOp),
      (okOp c op = false →
        (stepOp c op).err ≠ CTM_NONE ∧
        (ctmGetError (stepOp c op)).1 = (stepOp c op).err ∧
        (ctmGetError ((ctmGetError (stepOp c op)).2)).1 = CTM_NONE) ∧
      (okOp c op = true → (stepOp c op).err = c.err) := by
  intro c op
  exact ⟨fun hf => ⟨stepOp_err_of_fail c op hf, rfl, rfl⟩,
    fun hs => stepOp_err_of_ok c op hs⟩

/-- Witness for claim C4: adding a texture map on an Empty EXPORT context
fails; `ctmGetError` then reports the failure once and `CTM_NONE` the
second time; a later successful `ctmDefineMesh` call on a context with a
pending error leaves that error stored. -/
theorem c4_error_stickiness_witness :
    okOp exportCtx (CtmOp.addTexMap [] [1] []) = false ∧
      (stepOp exportCtx (CtmOp.addTexMap [] [1] [])).err ≠ CTM_NONE ∧
      (ctmGetError (stepOp exportCtx (CtmOp.addTexMap [] [1] []))).1 =
        (stepOp exportCtx (CtmOp.addTexMap [] [1] [])).err ∧
      (ctmGetError ((ctmGetError (stepOp exportCtx (CtmOp.addTexMap [] [1] []))).2)).1 =
        CTM_NONE ∧
      okOp { exportCtx with err := CTM_INVALID_OPERATION }
        (CtmOp.defineMesh [1, 2, 3] [(0, 0, 0)] none) = true ∧
      (stepOp { exportCtx with err := CTM_INVALID_OPERATION }
        (CtmOp.defineMesh [1, 2, 3] [(0, 0, 0)] none)).err =
        ({ exportCtx with err := CTM_INVALID_OPERATION } : Ctx).err :=
  ⟨by decide,
    ((c4_error_stickiness exportCtx _).1 (by decide)).1,
    ((c4_error_stickiness exportCtx _).1 (by decide)).2.1,
    ((c4_error_stickiness exportCtx _).1 (by decide)).2.2,
    by decide,
    (c4_error_stickiness _ _).2 (by decide)⟩

/-- Claim C5: a Load that fails reverts the IMPORT context to Empty with
the sticky error FORMAT_ERROR (no partial state), while a failed Save
leaves the EXPORT context's accumulated mesh, maps (carried inside the
mesh) and configuration intact for retry. -/
theorem c5_failed_load_empty_save_intact (c : Ctx) (f : List Nat) :
    (c.mode = CTM_IMPORT → decodeFile f = none →
      (ctmLoad c f).mesh = none ∧ (ctmLoad c f).err = CTM_FORMAT_ERROR) ∧
    ((ctmSave c).2 = none →
      (ctmSave c).1.mesh = c.mesh ∧ (ctmSave c).1.mode = c.mode ∧
      (ctmSave c).1.mg1Method = c.mg1Method) := by
  constructor
  · intro hm hd
    constructor <;> simp [ctmLoad, hm, hd]
  · intro hs
    by_cases hm : c.mode = CTM_EXPORT
    · rcases hme : c.mesh with _ | m
      · simp [ctmSave, hm, hme]
      · by_cases hw : wfB m = true
        · exfalso
          simp [ctmSave, hm, hme, hw] at hs
        · simp [ctmSave, hm, hme, hw]
    · simp [ctmSave, hm]

/-- Witness for claim C5: a truncated CTM file (the first 40 bytes of a
valid one, cutting off the sections) fails to decode, and loading it
leaves the IMPORT context Empty with FORMAT_ERROR; a Save on an Empty
EXPORT context fails and leaves its state untouched. -/
theorem c5_failed_load_empty_save_intact_witness :
    decodeFile ((encodeFile meshW false).take 40) = none ∧
      (ctmLoad importCtx ((encodeFile meshW false).take 40)).mesh = none ∧
      (ctmLoad importCtx ((encodeFile meshW false).take 40)).err = CTM_FORMAT_ERROR ∧
      (ctmSave exportCtx).1.mesh = exportCtx.mesh :=
  ⟨by decide,
    ((c5_failed_load_empty_save_intact importCtx _).1 rfl (by decide)).1,
    ((c5_failed_load_empty_save_intact importCtx _).1 rfl (by decide)).2,
    ((c5_failed_load_empty_save_intact exportCtx []).2 (by decide)).1⟩

/-- Claim C6: on an EXPORT context in the Empty state (no mesh defined),
`ctmAddTexMap` sets the sticky error to INVALID_OPERATION, returns
`CTM_NONE`, and does not mutate the state: the context stays Empty and
only the error slot changes. -/
theorem c6_addtexmap_empty (c : Ctx) (coords nm fn : List Nat)
    (hmode : c.mode = CTM_EXPORT) (hempty : c.mesh = none) :
    ctmAddTexMap c coords nm fn = ({ c with err := CTM_INVALID_OPERATION }, CTM_NONE) ∧
      (ctmAddTexMap c coords nm fn).1.mesh = none ∧
      (ctmAddTexMap c coords nm fn).2 = CTM_NONE := by
  have h : ctmAddTexMap c coords nm fn = ({ c with err := CTM_INVALID_OPERATION }, CTM_NONE) := by
    simp [ctmAddTexMap, hmode, hempty]
  refine ⟨h, ?_, by rw [h]⟩
  rw [h]
  exact hempty

/-- Witness for claim C6 at a fresh EXPORT context. -/
theorem c6_addtexmap_empty_witness :
    exportCtx.mode = CTM_EXPORT ∧ exportCtx.mesh = none ∧
      ctmAddTexMap exportCtx [1, 2] [65] [] =
        ({ exportCtx with err := CTM_INVALID_OPERATION }, CTM_NONE) ∧
      (ctmAddTexMap exportCtx [1, 2] [65] []).1.mesh = none :=
  ⟨rfl, rfl, (c6_addtexmap_empty exportCtx [1, 2] [65] [] rfl rfl).1,
    (c6_addtexmap_empty exportCtx [1, 2] [65] [] rfl rfl).2.1⟩

theorem findIdxGo_isSome_iff (p : α → Bool) (l : List α) :
    (findIdxGo p l).isSome = true ↔ ∃ x ∈ l, p x = true := by
  induction l with
  | nil => simp [findIdxGo]
  | cons y r ih =>
    by_cases hy : p y = true
    · simp [findIdxGo, hy]
    · simp [findIdxGo, hy, ih]

/-- Claim C8: `ctmGetNamedTexMap` returns a value of `CTM_TEX_MAP_1` or
higher when a texture map with the given name exists in the context, and
otherwise returns `CTM_NONE`, which is the value 0 also used as the
no-error code; after decoding a mesh with one UV map named "Pigment",
looking up "Pigment" returns `CTM_TEX_MAP_1`. -/
theorem c8_named_texmap :
    (∀ (c : Ctx) (nm : List Nat),
      ((∃ m, c.mesh = some m ∧ ∃ tm ∈ m.texMaps, tm.name = nm) →
        CTM_TEX_MAP_1 ≤ ctmGetNamedTexMap c nm) ∧
      ((¬ ∃ m, c.mesh = some m ∧ ∃ tm ∈ m.texMaps, tm.name = nm) →
        ctmGetNamedTexMap c nm = CTM_NONE)) ∧
    CTM_NONE = 0 ∧
    ctmGetNamedTexMap (ctmLoad importCtx (encodeFile meshW false)) pigmentName =
      CTM_TEX_MAP_1 := by
  refine ⟨?_, rfl, by decide⟩
  intro c nm
  rcases hme : c.mesh with _ | m
  · constructor
    · rintro ⟨m, hm, -⟩
      simp [hme] at hm
    · intro _
      simp [ctmGetNamedTexMap, hme]
  · constructor
    · rintro ⟨m', hm', tm, htm, hname⟩
      injection hm' with e
      subst e
      have hex : ∃ x ∈ m.texMaps, (fun tm => tm.name == nm) x = true :=
        ⟨tm, htm, by simp [hname]⟩
      have hs := (findIdxGo_isSome_iff _ _).mpr hex
      obtain ⟨i, hi⟩ := Option.isSome_iff_exists.mp hs
      simp only [ctmGetNamedTexMap, hme, hi]
      omega
    · intro hne
      have hno : findIdxGo (fun tm => tm.name == nm) m.texMaps = none := by
        rcases ho : findIdxGo (fun tm => tm.name == nm) m.texMaps with _ | i
        · exact ho
        · exfalso
          have hs : (findIdxGo (fun tm => tm.name == nm) m.texMaps).isSome = true := by
            simp [ho]
          obtain ⟨tm, htm, hp⟩ := (findIdxGo_isSome_iff _ _).mp hs
          exact hne ⟨m, rfl, tm, htm, by simpa using hp⟩
      simp [ctmGetNamedTexMap, hme, hno]

/-- Witness for claim C8: the decoded "Pigment" context resolves the name
to a value at least `CTM_TEX_MAP_1`, and a fresh (Empty) context resolves
any name to `CTM_NONE`. -/
theorem c8_named_texmap_witness :
    CTM_TEX_MAP_1 ≤ ctmGetNamedTexMap (ctmLoad importCtx (encodeFile meshW false)) pigmentName ∧
      ctmGetNamedTexMap importCtx pigmentName = CTM_NONE :=
  ⟨(c8_named_texmap.1 _ pigmentName).1
      ⟨meshW, by decide,
        ⟨{ name := pigmentName, fileName := [], coords := [21, 22, 23, 24, 25, 26] },
          by decide, rfl⟩⟩,
    (c8_named_texmap.1 importCtx pigmentName).2
      (by rintro ⟨m, hm, -⟩; simp [importCtx] at hm)⟩

/-- Claim C9: `ctmGetIntegerArray` returns NULL (here `none`) whenever the
requested array does not exist or the property does not designate an
integer array, and `ctmGetFloatArray` likewise returns `none` whenever the
requested array does not exist (no mesh, no normals, no such texture or
attribute map) or the property does not designate a float array. -/
theorem c9_getarray_none :
    ∀ (c : Ctx) (prop : Nat),
      (c.mesh = none → ctmGetIntegerArray c prop = none ∧ ctmGetFloatArray c prop = none) ∧
      (prop ≠ CTM_INDICES → ctmGetIntegerArray c prop = none) ∧
      (¬ isFloatArrayProp prop → ctmGetFloatArray c prop = none) ∧
      (∀ m, c.mesh = some m → prop = CTM_NORMALS → m.normals = none →
        ctmGetFloatArray c prop = none) ∧
      (∀ m, c.mesh = some m → CTM_TEX_MAP_1 ≤ prop → prop ≤ CTM_TEX_MAP_8 →
        m.texMaps.length ≤ prop - CTM_TEX_MAP_1 → ctmGetFloatArray c prop = none) ∧
      (∀ m, c.mesh = some m → CTM_ATTRIB_MAP_1 ≤ prop → prop ≤ CTM_ATTRIB_MAP_8 →
        m.attribMaps.length ≤ prop - CTM_ATTRIB_MAP_1 → ctmGetFloatArray c prop = none) := by
  intro c prop
  refine ⟨?_, ?_, ?_, ?_, ?_, ?_⟩
  · intro hme
    exact ⟨by simp [ctmGetIntegerArray, hme], by simp [ctmGetFloatArray, hme]⟩
  · intro hne
    rcases hme : c.mesh with _ | m
    · simp [ctmGetIntegerArray, hme]
    · simp [ctmGetIntegerArray, hme, hne]
  · intro hni
    rcases hme : c.mesh with _ | m
    · simp [ctmGetFloatArray, hme]
    · simp only [ctmGetFloatArray, hme]
      split_ifs with h1 h2 h3 h4
      · exact absurd (Or.inl h1) hni
      · exact absurd (Or.inr (Or.inl h2)) hni
      · exact absurd (Or.inr (Or.inr (Or.inl h3))) hni
      · exact absurd (Or.inr (Or.inr (Or.inr h4))) hni
      · rfl
  · intro m hme hprop hnorm
    subst hprop
    simp [ctmGetFloatArray, hme, hnorm, CTM_NORMALS, CTM_VERTICES, CTM_TEX_MAP_1,
      CTM_TEX_MAP_8, CTM_ATTRIB_MAP_1, CTM_ATTRIB_MAP_8]
  · intro m hme hlo hhi hlen
    simp only [CTM_TEX_MAP_1, CTM_TEX_MAP_8] at hlo hhi hlen
    simp only [ctmGetFloatArray, hme, CTM_VERTICES, CTM_NORMALS, CTM_TEX_MAP_1,
      CTM_TEX_MAP_8, CTM_ATTRIB_MAP_1, CTM_ATTRIB_MAP_8]
    rw [if_neg (by omega), if_neg (by omega), if_pos ⟨hlo, hhi⟩]
    simp [List.getElem?_eq_none hlen]
  · intro m hme hlo hhi hlen
    simp only [CTM_ATTRIB_MAP_1, CTM_ATTRIB_MAP_8] at hlo hhi hlen
    simp only [ctmGetFloatArray, hme, CTM_VERTICES, CTM_NORMALS, CTM_TEX_MAP_1,
      CTM_TEX_MAP_8, CTM_ATTRIB_MAP_1, CTM_ATTRIB_MAP_8]
    rw [if_neg (by omega), if_neg (by omega), if_neg (by omega), if_pos ⟨hlo, hhi⟩]
    simp [List.getElem?_eq_none hlen]

/-- Witness for claim C9: on an Empty context both getters return `none`
for `CTM_VERTICES`; on a decoded context the integer getter returns
`none` for the float property `CTM_VERTICES` and the float getter returns
`none` for the absent second texture map. -/
theorem c9_getarray_none_witness :
    ctmGetIntegerArray importCtx CTM_VERTICES = none ∧
      ctmGetFloatArray importCtx CTM_VERTICES = none ∧
      ctmGetIntegerArray (ctmLoad importCtx (encodeFile meshW false)) CTM_VERTICES = none ∧
      ctmGetFloatArray (ctmLoad importCtx (encodeFile meshW false)) CTM_TEX_MAP_2 = none :=
  ⟨((c9_getarray_none importCtx CTM_VERTICES).1 rfl).1,
    ((c9_getarray_none importCtx CTM_VERTICES).1 rfl).2,
    (c9_getarray_none _ CTM_VERTICES).2.1 (by decide),
    (c9_getarray_none _ CTM_TEX_MAP_2).2.2.2.2.1 meshW (by decide) (by decide) (by decide)
      (by decide)⟩
